import Mathlib

/-!
Verification of the FinSight query pipeline (analyzer.py, integrator.py)
against its specification.  Python strings are embedded as `List Char`,
pandas DataFrames as lists of structures, machine floats as exact
rationals (with the non-finite values NaN/±Infinity modelled explicitly
as `PyNum` where the code branches on finiteness), and fallible code as
`Option`/`Except`.
-/

set_option maxRecDepth 100000

namespace FinSight

/-- Python strings, embedded as lists of characters. -/
abbrev Str := List Char

/-- Models `str.lower()` for the ASCII letters (the only letters occurring
in the SQL templates and keyword lists of analyzer.py). -/
def lowerChar (c : Char) : Char :=
  if 'A' ≤ c ∧ c ≤ 'Z' then Char.ofNat (c.toNat + 32) else c

/-- Models `str.lower()` on a whole string. -/
def lowerStr (s : Str) : Str := s.map lowerChar

/-- Models `str.upper()` for the ASCII letters. -/
def upperChar (c : Char) : Char :=
  if 'a' ≤ c ∧ c ≤ 'z' then Char.ofNat (c.toNat - 32) else c

/-- Models `str.upper()` on a whole string. -/
def upperStr (s : Str) : Str := s.map upperChar

/-- The whitespace characters removed by Python's `str.strip()`
(space, tab, newline, carriage return, vertical tab, form feed). -/
def isWS (c : Char) : Bool :=
  (c = ' ') || (c = '\t') || (c = '\n') || (c = '\r') ||
    (c = '\x0b') || (c = '\x0c')

/-- Left part of `str.strip()`: drop leading whitespace. -/
def stripLeft (s : Str) : Str := s.dropWhile isWS

/-- Right part of `str.strip()`: drop trailing whitespace. -/
def stripRight (s : Str) : Str := (s.reverse.dropWhile isWS).reverse

/-- Models Python's `str.strip()`. -/
def strip (s : Str) : Str := stripRight (stripLeft s)

/-- Models Python's substring operator `needle in haystack`:
`isSub p s = true` iff `p` occurs contiguously inside `s`. -/
def isSub (p : Str) : Str → Bool
  | [] => p.isPrefixOf []
  | c :: rest => p.isPrefixOf (c :: rest) || isSub p rest

/-- The mutating keywords rejected by `validate_sql_query`
(analyzer.py line 178). -/
def dangerousKeywords : List Str :=
  List.map String.toList ["drop", "delete", "insert", "update", "truncate", "alter", "create"]

/-- The fundamentals-only field names a price query must not mention
(analyzer.py lines 190-197). -/
def fundamentalFields : List Str :=
  List.map String.toList
    ["roe", "debt_equity", "pe_ratio", "pb_ratio", "current_ratio", "market_cap"]

/-- The price-only field names a fundamentals query must not mention
(analyzer.py lines 212-218). -/
def priceFields : List Str :=
  List.map String.toList
    ["close_price", "trade_date", "price_growth", "start_price", "end_price"]

/-- The date-range parameter names of the exemption list
(analyzer.py lines 220-223). -/
def dateParamNames : List Str :=
  List.map String.toList ["start_date", "end_date"]

/-- Embedding of `validate_sql_query(sql, query_type)` (analyzer.py
lines 163-229): empty strings are rejected; the lowercased, stripped text
must contain `select` and `from`, none of the mutating keywords; a price
query must read from the `prices` table and mention no fundamentals-only
field; a fundamentals query must read from the `fundamentals` table and
mention no price-only field (with the source's exemption test for date
parameter names reproduced as written). -/
def validate_sql_query (sql : Str) (query_type : Str) : Bool :=
  if sql = [] then false
  else
    let sl := strip (lowerStr sql)
    if ¬ (isSub ("select".toList) sl ∧ isSub ("from".toList) sl) then false
    else if dangerousKeywords.any (fun k => isSub k sl) then false
    else if query_type = "price".toList then
      if ¬ (isSub ("from prices".toList) sl = true) then false
      else if fundamentalFields.any (fun f => isSub f sl) then false
      else true
    else if query_type = "fund".toList then
      if ¬ (isSub ("from fundamentals".toList) sl = true) then false
      else if priceFields.any
          (fun f => isSub f sl && ¬ (dateParamNames.contains f)) then false
      else true
    else true

/-- The ten decimal digit characters. -/
def digitChars : List Char :=
  ['0', '1', '2', '3', '4', '5', '6', '7', '8', '9']

/-- The decimal digit character for `n % 10`-style values. -/
def digitChar (n : ℕ) : Char := digitChars.getD n '0'

/-- Fuel-bounded decimal rendering; the fuel only makes the recursion
structural, `n + 1` steps always suffice since `n / 10 < n`. -/
def natDigitsAux : ℕ → ℕ → Str
  | 0, _ => []
  | fuel + 1, n =>
    if n < 10 then [digitChar n]
    else natDigitsAux fuel (n / 10) ++ [digitChar (n % 10)]

/-- Decimal rendering of a natural number, most significant digit first
(models Python's `str` on a non-negative int). -/
def natDigits (n : ℕ) : Str := natDigitsAux (n + 1) n

/-- Zero-padding on the left to `k` characters. -/
def padZero (k : ℕ) (s : Str) : Str := List.replicate (k - s.length) '0' ++ s

/-- Decimal rendering of a Python int (models `str` on an int). -/
def intStr (i : ℤ) : Str :=
  if i < 0 then '-' :: natDigits i.natAbs else natDigits i.natAbs

/-- A `datetime.date` value.  Only its ISO rendering matters here. -/
structure PDate where
  year : ℕ
  month : ℕ
  day : ℕ
deriving DecidableEq

/-- Models `str` on a `datetime.date`: `YYYY-MM-DD` with zero padding. -/
def dateStr (d : PDate) : Str :=
  padZero 4 (natDigits d.year) ++ ['-'] ++ padZero 2 (natDigits d.month)
    ++ ['-'] ++ padZero 2 (natDigits d.day)

/-- The tracked symbol universe `ALL_SYMBOLS` (analyzer.py lines 9-19). -/
def ALL_SYMBOLS : List Str :=
  List.map String.toList
    ["RELIANCE", "HDFCBANK", "BHARTIARTL", "TCS", "ICICIBANK", "SBIN",
     "BAJFINANCE", "INFY", "HINDUNILVR"]

/-- Embedding of the `QueryPlan` dataclass (analyzer.py lines 22-35).
The two SQL fields filled in by `build_sql` are represented by the
functions `sql_price_of` and `sql_fund_of` below instead of mutable
fields. -/
structure QueryPlan where
  start_date : PDate
  end_date : PDate
  symbols : Option (List Str)
  min_price_growth : Option ℚ
  max_debt_equity : Option ℚ
  min_roe : Option ℚ
  max_pe : Option ℚ
  fy : Option ℤ
deriving DecidableEq

/-- Python's `", ".join(f"'{s}'" for s in symbols)` (analyzer.py line 414). -/
def quotedJoin : List Str → Str
  | [] => []
  | [s] => '\'' :: s ++ ['\'']
  | s :: r :: rs => '\'' :: s ++ '\'' :: ',' :: ' ' :: quotedJoin (r :: rs)

/-- The `where_symbols` fragment of the manual price SQL (analyzer.py
lines 412-415); empty when `symbols` is `None` or the empty list
(Python truthiness of `if plan.symbols:`). -/
def whereSymbols (symbols : Option (List Str)) : Str :=
  match symbols with
  | none => []
  | some l =>
    if l = [] then []
    else "AND symbol IN (".toList ++ quotedJoin l ++ [')']

/-- The literal template text of the manual price SQL before the start
date (analyzer.py lines 417-424). -/
def priceT1 : Str :=
  ("\n        SELECT\n            symbol,\n            MIN(close_price) AS start_price,\n            MAX(close_price) AS end_price,\n            (MAX(close_price) - MIN(close_price)) / MIN(close_price) AS price_growth\n        FROM prices\n        WHERE trade_date BETWEEN '").toList

/-- The template text between the two dates of the manual price SQL. -/
def priceT2 : Str := ("' AND '").toList

/-- The template text between the end date and the symbol clause. -/
def priceT3 : Str := ("'\n        ").toList

/-- The template text after the symbol clause of the manual price SQL. -/
def priceT4 : Str := ("\n        GROUP BY symbol\n    ").toList

/-- The price statement produced by the manual (deterministic) path of
`build_sql` (analyzer.py lines 417-427). -/
def sql_price_of (plan : QueryPlan) : Str :=
  priceT1 ++ dateStr plan.start_date ++ priceT2 ++ dateStr plan.end_date
    ++ priceT3 ++ whereSymbols plan.symbols ++ priceT4

/-- The literal template text of the manual fundamentals SQL before the
fiscal-year clause (analyzer.py lines 435-447). -/
def fundT1 : Str :=
  ("\n        SELECT\n            symbol,\n            fy,\n            roe,\n            debt_equity_ratio,\n            current_ratio,\n            pe_ratio,\n            pb_ratio,\n            market_cap\n        FROM fundamentals\n        WHERE 1 = 1\n        ").toList

/-- The template text after the fiscal-year clause of the fundamentals SQL. -/
def fundT2 : Str := ("\n    ").toList

/-- The `fy_filter` fragment (analyzer.py lines 430-433). -/
def fyFilter (fy : Option ℤ) : Str :=
  match fy with
  | some y => ("AND fy = ").toList ++ intStr y
  | none => ("AND fy IN (2012, 2022)").toList

/-- The fundamentals statement produced by the manual (deterministic)
path of `build_sql` (analyzer.py lines 435-448). -/
def sql_fund_of (plan : QueryPlan) : Str :=
  fundT1 ++ fyFilter plan.fy ++ fundT2

/-- A Python float as the code observes it: a finite value (kept exact as a
rational; rounding is not modelled) or one of the non-finite values NaN,
+Infinity, -Infinity that `math.isfinite` distinguishes. -/
inductive PyNum where
  | fin (q : ℚ)
  | nan
  | inf
  | ninf
deriving DecidableEq

/-- Models `math.isfinite`. -/
def PyNum.isFinite : PyNum → Bool
  | .fin _ => true
  | _ => false

/-- Decimal digit test. -/
def isDigit (c : Char) : Bool := ('0' ≤ c) && (c ≤ '9')

/-- Numeric value of a digit character. -/
def digitVal (c : Char) : ℕ := c.toNat - ('0').toNat

/-- Value of a digit string, most significant first. -/
def digitsVal (s : Str) : ℕ := s.foldl (fun a c => 10 * a + digitVal c) 0

/-- The optional exponent tail of a float literal: empty, or
`(e|E)[+-]?digits`. -/
def parseExpTail (s : Str) : Option ℤ :=
  match s with
  | [] => some 0
  | c :: rest =>
    if c = 'e' ∨ c = 'E' then
      match rest with
      | '+' :: ds =>
        if ds ≠ [] ∧ ds.all isDigit then some (digitsVal ds) else Option.none
      | '-' :: ds =>
        if ds ≠ [] ∧ ds.all isDigit then some (-(digitsVal ds : ℤ)) else Option.none
      | ds =>
        if ds ≠ [] ∧ ds.all isDigit then some (digitsVal ds) else Option.none
    else Option.none

/-- Models Python's `float(str)` on the string forms this codebase can
produce: surrounding whitespace, an optional sign, then `nan`, `inf`,
`infinity` (case-insensitive) or a decimal literal `digits[.digits]`
or `.digits` with an optional exponent.  Unmodelled Python extras
(underscore digit separators, non-ASCII digits, overflow of huge
literals to infinity) do not occur in the analysed inputs; finite
values are kept exact as rationals. -/
def parsePyFloat (s0 : Str) : Option PyNum :=
  let s1 := strip s0
  let sgnNeg : Bool := match s1 with
    | '-' :: _ => true
    | _ => false
  let s2 : Str := match s1 with
    | '+' :: r => r
    | '-' :: r => r
    | r => r
  let low := lowerStr s2
  if low = ("nan").toList then some PyNum.nan
  else if low = ("inf").toList ∨ low = ("infinity").toList then
    some (if sgnNeg then PyNum.ninf else PyNum.inf)
  else
    let ip := s2.takeWhile isDigit
    let r1 := s2.drop ip.length
    let fp : Str := match r1 with
      | '.' :: t => t.takeWhile isDigit
      | _ => []
    let r2 : Str := match r1 with
      | '.' :: t => t.dropWhile isDigit
      | t => t
    match parseExpTail r2 with
    | Option.none => Option.none
    | some e =>
      if ip = [] ∧ fp = [] then Option.none
      else
        let mag : ℚ :=
          ((digitsVal ip : ℚ) + (digitsVal fp : ℚ) / 10 ^ fp.length) * (10 : ℚ) ^ e
        some (PyNum.fin (if sgnNeg then -mag else mag))

/-- A Python value as it can reach `_safe_number`: `None`, a string, or a
float. -/
inductive PyVal where
  | none
  | str (s : Str)
  | num (v : PyNum)
deriving DecidableEq

/-- Models the `float(value)` call of `_safe_number`: `None` raises
`TypeError` (here: no value), a string parses or raises `ValueError`,
a float passes through. -/
def pyFloat : PyVal → Option PyNum
  | .none => Option.none
  | .str s => parsePyFloat s
  | .num v => some v

/-- Embedding of `_safe_number` (integrator.py lines 244-254): values that
fail to convert with `float()` or are non-finite become `None`
(= `Option.none`), finite values pass through. -/
def _safe_number (v : PyVal) : Option ℚ :=
  match pyFloat v with
  | Option.none => Option.none
  | some n =>
    match n with
    | .fin q => some q
    | _ => Option.none

/-- Embedding of the per-metric guard `float(v) if math.isfinite(v) else 0.0`
(integrator.py lines 59-62). -/
def riskMetricGuard (v : PyNum) : PyNum :=
  if v.isFinite then v else PyNum.fin 0

/-- A row of the fundamentals result table (`FundamentalsRow`);
metric cells may be NULL/NaN, modelled as `Option.none`. -/
structure FundRow where
  symbol : Str
  fy : ℤ
  roe : Option ℚ
  debt_equity_ratio : Option ℚ
  current_ratio : Option ℚ
  pe_ratio : Option ℚ
  pb_ratio : Option ℚ
  market_cap : Option ℚ
deriving DecidableEq

/-- A row of the aggregated price result table as the price SQL
produces it: one row per symbol with min/max price and growth. -/
structure PriceAggRow where
  symbol : Str
  start_price : Option ℚ
  end_price : Option ℚ
  price_growth : Option ℚ
deriving DecidableEq

/-- A row of the per-day price table used for risk metrics
(`PriceRow` of the spec). -/
structure DailyRow where
  symbol : Str
  trade_date : PDate
  close_price : ℚ
deriving DecidableEq

/-- A row of the left join of fundamentals onto price rows; `fund = none`
models the NaN-filled fundamentals cells of an unmatched symbol (and the
absence of the fundamentals columns when the fundamentals table is
empty, tracked separately by a `hasFund` flag). -/
structure JoinedRow where
  price : PriceAggRow
  fund : Option FundRow
deriving DecidableEq

/-- An output row of `integrate` (integrator.py lines 262-276). -/
structure ResultRow where
  symbol : Str
  price_growth : Option ℚ
  start_price : Option ℚ
  end_price : Option ℚ
  roe : Option ℚ
  debt_equity_ratio : Option ℚ
  pe_ratio : Option ℚ
  current_ratio : Option ℚ
  market_cap : Option ℚ
  volatility : Option ℝ
  max_drawdown : Option ℚ

/-- The sort key of `df_fund.sort_values(["symbol", "fy"])`: ascending
lexicographic order on (symbol, fiscal year).  pandas sorts a multi-column
key with a stable lexsort; the stable `List.insertionSort` below models
this. -/
def fundLE (a b : FundRow) : Prop :=
  a.symbol < b.symbol ∨ (a.symbol = b.symbol ∧ a.fy ≤ b.fy)

instance : DecidableRel fundLE := fun a b => by
  unfold fundLE; exact inferInstance

instance : IsTotal FundRow fundLE :=
  ⟨fun a b => by
    unfold fundLE
    rcases lt_trichotomy a.symbol b.symbol with h | h | h
    · exact Or.inl (Or.inl h)
    · rcases le_total a.fy b.fy with hf | hf
      · exact Or.inl (Or.inr ⟨h, hf⟩)
      · exact Or.inr (Or.inr ⟨h.symm, hf⟩)
    · exact Or.inr (Or.inl h)⟩

instance : IsTrans FundRow fundLE :=
  ⟨fun a b c hab hbc => by
    unfold fundLE at *
    rcases hab with h1 | ⟨e1, f1⟩
    · rcases hbc with h2 | ⟨e2, _⟩
      · exact Or.inl (h1.trans h2)
      · exact Or.inl (by rw [← e2]; exact h1)
    · rcases hbc with h2 | ⟨e2, f2⟩
      · exact Or.inl (by rw [e1]; exact h2)
      · exact Or.inr ⟨e1.trans e2, f1.trans f2⟩⟩

/-- Models `drop_duplicates("symbol", keep="last")`: keeps, in order, each
row whose symbol does not occur again later in the list. -/
def dedupLast : List FundRow → List FundRow
  | [] => []
  | r :: rest =>
    if rest.any (fun x => decide (x.symbol = r.symbol)) then dedupLast rest
    else r :: dedupLast rest

/-- Embedding of the fundamentals collapse (integrator.py lines 172-175):
sort by (symbol, fy), then keep the last row of each symbol.  The source
skips the step when the table is empty or lacks the `fy` column; on an
empty table the step is the identity, and every `FundRow` here has the
`fy` field. -/
def collapseFund (rows : List FundRow) : List FundRow :=
  dedupLast (List.insertionSort fundLE rows)

/-- Embedding of `pd.merge(df_price, df_fund, on="symbol", how="left")`
(integrator.py line 182): every price row appears; each is paired with
every matching fundamentals row, or with absent fundamentals when no row
matches. -/
def leftJoin (price : List PriceAggRow) (fund : List FundRow) : List JoinedRow :=
  price.flatMap fun p =>
    match fund.filter (fun f => decide (f.symbol = p.symbol)) with
    | [] => [⟨p, Option.none⟩]
    | fs => fs.map fun f => ⟨p, some f⟩

/-- The four threshold filters of `integrate`
(integrator.py lines 191-201), in source order. -/
inductive FilterKind where
  | growth
  | de
  | roe
  | pe
deriving DecidableEq

/-- The source order of the four filter blocks. -/
def allFilterKinds : List FilterKind :=
  [FilterKind.growth, FilterKind.de, FilterKind.roe, FilterKind.pe]

/-- The threshold of a filter in a plan. -/
def filterThreshold (k : FilterKind) (plan : QueryPlan) : Option ℚ :=
  match k with
  | .growth => plan.min_price_growth
  | .de => plan.max_debt_equity
  | .roe => plan.min_roe
  | .pe => plan.max_pe

/-- Whether the filter's column is present in the joined table:
`price_growth` always is; the fundamentals columns only when the
fundamentals table was non-empty (`"..." in df.columns`). -/
def filterColPresent (k : FilterKind) (hasFund : Bool) : Bool :=
  match k with
  | .growth => true
  | _ => hasFund

/-- The cell a filter compares, as the joined row carries it. -/
def rowField (k : FilterKind) (j : JoinedRow) : Option ℚ :=
  match k with
  | .growth => j.price.price_growth
  | .de => j.fund.bind FundRow.debt_equity_ratio
  | .roe => j.fund.bind FundRow.roe
  | .pe => j.fund.bind FundRow.pe_ratio

/-- The comparison direction of each filter (≥ for growth and ROE,
≤ for debt/equity and P/E). -/
def filterCmp (k : FilterKind) (v m : ℚ) : Bool :=
  match k with
  | .growth => m ≤ v
  | .de => v ≤ m
  | .roe => m ≤ v
  | .pe => v ≤ m

/-- Row-level filter predicate; a missing (NaN) cell compares `False`,
as a pandas comparison against NaN does. -/
def rowPasses (k : FilterKind) (m : ℚ) (j : JoinedRow) : Bool :=
  match rowField k j with
  | Option.none => false
  | some v => filterCmp k v m

/-- One threshold filter block: the identity when the threshold is absent
or the column is missing, otherwise a row filter. -/
def applyFilter (k : FilterKind) (plan : QueryPlan) (hasFund : Bool)
    (rows : List JoinedRow) : List JoinedRow :=
  match filterThreshold k plan with
  | Option.none => rows
  | some m =>
    if filterColPresent k hasFund then rows.filter (rowPasses k m) else rows

/-- The filter blocks applied in sequence. -/
def applyFilters (ks : List FilterKind) (plan : QueryPlan) (hasFund : Bool)
    (rows : List JoinedRow) : List JoinedRow :=
  ks.foldl (fun acc k => applyFilter k plan hasFund acc) rows

/-- The total row predicate a filter block amounts to: `true` when the
threshold is absent or the column missing, the row comparison
otherwise. -/
def filterPred (k : FilterKind) (plan : QueryPlan) (hF : Bool)
    (j : JoinedRow) : Bool :=
  match filterThreshold k plan with
  | Option.none => true
  | some m => if filterColPresent k hF then rowPasses k m j else true

/-- The 2022 fundamentals row of end-to-end scenario 1:
symbol A, fiscal year 2022, debt/equity 0.8. -/
def scenFund2022 : FundRow :=
  ⟨("A").toList, 2022, Option.none, some (8 / 10), Option.none,
    Option.none, Option.none, Option.none⟩

/-- The 2021 fundamentals row of end-to-end scenario 1:
symbol A, fiscal year 2021, debt/equity 2.0. -/
def scenFund2021 : FundRow :=
  ⟨("A").toList, 2021, Option.none, some 2, Option.none,
    Option.none, Option.none, Option.none⟩

/-- The price row for symbol A of end-to-end scenario 1. -/
def scenPrice : PriceAggRow := ⟨("A").toList, some 100, some 120, some (2 / 10)⟩

/-- The plan of end-to-end scenario 1: fiscal year 2022 and
`max_debt_equity = 1.0`. -/
def scenPlan : QueryPlan :=
  ⟨⟨2022, 1, 1⟩, ⟨2022, 12, 31⟩, Option.none, Option.none, some 1,
    Option.none, Option.none, some 2022⟩

/-- Models `groupby("symbol")["close_price"].pct_change()` after the
leading NaN is dropped: consecutive-day returns `p[t]/p[t-1] - 1`
(integrator.py lines 22-26, 46). -/
def dailyReturns (ps : List ℚ) : List ℚ :=
  List.zipWith (fun prev cur => cur / prev - 1) ps ps.tail

/-- Running maximum continued from an accumulator. -/
def cummaxFrom (m : ℚ) : List ℚ → List ℚ
  | [] => []
  | x :: xs => max m x :: cummaxFrom (max m x) xs

/-- Models `prices.cummax()` (integrator.py line 54). -/
def cummax : List ℚ → List ℚ
  | [] => []
  | x :: xs => x :: cummaxFrom x xs

/-- Models `(prices / running_max) - 1.0` (integrator.py line 55); a zero
running maximum gives the float NaN `0/0`, modelled as `Option.none` and
skipped by the pandas `min` below. -/
def drawdowns (ps : List ℚ) : List (Option ℚ) :=
  List.zipWith
    (fun p m => if m = 0 then Option.none else some (p / m - 1)) ps (cummax ps)

/-- Python's `abs`, written without typeclass indirection so that the
kernel can evaluate it. -/
def ratAbs (q : ℚ) : ℚ := if q < 0 then -q else q

/-- Binary minimum on rationals, kernel-evaluable. -/
def ratMin (a b : ℚ) : ℚ := if a ≤ b then a else b

/-- Embedding of the max-drawdown computation
`abs(drawdowns.min())` with the empty-series and non-finite guards
(integrator.py lines 49-62): 0 for an empty series, 0 when every
drawdown is NaN (the guard maps the resulting NaN to 0), otherwise the
absolute value of the minimum drawdown. -/
def maxDrawdown (ps : List ℚ) : ℚ :=
  match (drawdowns ps).filterMap id with
  | [] => 0
  | v :: vs => ratAbs (vs.foldl ratMin v)

/-- Modelled from the spec's words, for comparison with the source's
`maxDrawdown`: the largest peak-to-trough relative decline
`max(1 - price[t]/running_max_price[0..t])` over the sorted series, 0
for the empty series. -/
def maxDrawdownSpec (ps : List ℚ) : ℚ :=
  match List.zipWith (fun p m => 1 - p / m) ps (cummax ps) with
  | [] => 0
  | v :: vs => vs.foldl max v

/-- Sample variance with one delta degree of freedom, as
`pandas.Series.std` squares it. -/
def sampleVariance (rs : List ℚ) : ℚ :=
  let n : ℚ := rs.length
  let mean := rs.sum / n
  (rs.map (fun x => (x - mean) ^ 2)).sum / (n - 1)

/-- Embedding of the volatility computation (integrator.py lines 46-47,
59-62): the sample standard deviation of the daily returns; 0 when there
are no returns (empty branch of line 47) and 0 when there is exactly one
(pandas `std` yields NaN there, which the finiteness guard of line 60
maps to 0). -/
noncomputable def volatility (ps : List ℚ) : ℝ :=
  let rs := dailyReturns ps
  if rs.length ≤ 1 then 0 else Real.sqrt ((sampleVariance rs : ℚ) : ℝ)

/-- Lexicographic comparison of dates, `a ≤ b`. -/
def dateLE (a b : PDate) : Bool :=
  decide (a.year < b.year) ||
    (decide (a.year = b.year) &&
      (decide (a.month < b.month) ||
        (decide (a.month = b.month) && decide (a.day ≤ b.day))))

/-- The date-window restriction of the risk series
(integrator.py lines 232-238). -/
def windowed (plan : QueryPlan) (daily : List DailyRow) : List DailyRow :=
  daily.filter fun r =>
    dateLE plan.start_date r.trade_date && dateLE r.trade_date plan.end_date

/-- Sort order of the per-symbol series: ascending trade date. -/
def dailyLE (a b : DailyRow) : Prop := dateLE a.trade_date b.trade_date = true

instance : DecidableRel dailyLE := fun a b => by
  unfold dailyLE; exact inferInstance

/-- The close-price series of one symbol, sorted by trade date
(integrator.py lines 45, 49). -/
def seriesOf (daily : List DailyRow) (sym : Str) : List ℚ :=
  (List.insertionSort dailyLE
      (daily.filter fun r => decide (r.symbol = sym))).map DailyRow.close_price

/-- One output row (integrator.py lines 258-276).  The `_safe_number`
coercion is the identity on the finite rational cells of this model and
maps the NaN cells (`Option.none`) to `None`; the risk metrics are
present exactly when the symbol has rows in the risk series
(`vol_dd.get(symbol, {})`). -/
noncomputable def buildResult (riskRows : List DailyRow) (j : JoinedRow) :
    ResultRow :=
  let series := seriesOf riskRows j.price.symbol
  { symbol := j.price.symbol
    price_growth := j.price.price_growth
    start_price := j.price.start_price
    end_price := j.price.end_price
    roe := j.fund.bind FundRow.roe
    debt_equity_ratio := j.fund.bind FundRow.debt_equity_ratio
    pe_ratio := j.fund.bind FundRow.pe_ratio
    current_ratio := j.fund.bind FundRow.current_ratio
    market_cap := j.fund.bind FundRow.market_cap
    volatility := if series = [] then Option.none else some (volatility series)
    max_drawdown := if series = [] then Option.none else some (maxDrawdown series) }

/-- The stages of `integrate`, named for the execution trace. -/
inductive Stage where
  | collapseStage
  | joinStage
  | universeStage
  | filterStage
  | riskStage
  | resultStage
deriving DecidableEq

/-- The stages `integrate` executes, in source order: the fundamentals
collapse runs first whenever the fundamentals table is non-empty
(integrator.py lines 172-175); the empty-price check (line 178) returns
before the join, universe restriction, filters, risk metrics and result
building; the join is evaluated only when the fundamentals table is
non-empty (line 181-185). -/
def integrateStages (df_price : List PriceAggRow) (df_fund : List FundRow) :
    List Stage :=
  (if df_fund = [] then [] else [Stage.collapseStage]) ++
    (if df_price = [] then []
     else
       (if df_fund = [] then [] else [Stage.joinStage]) ++
         [Stage.universeStage, Stage.filterStage, Stage.riskStage,
          Stage.resultStage])

/-- Embedding of `integrate` (integrator.py lines 161-285), parameterised
by the list of filter blocks so that dropping or permuting them can be
stated; `integrate` below fixes the source order.  `daily` is the per-day
price table used for the risk metrics (the granular `df_price` when it has
day-level columns, else the re-fetched table of lines 209-229); the
narrative generation is the external LLM collaborator and is modelled as
the empty summary it returns when unavailable. -/
noncomputable def integrateWith (ks : List FilterKind) (plan : QueryPlan)
    (df_price : List PriceAggRow) (df_fund : List FundRow)
    (daily : List DailyRow) : List ResultRow × Str :=
  let dfFund := collapseFund df_fund
  if df_price = [] then
    ([], ("No price data found for the specified criteria.").toList)
  else
    let hasFund : Bool := decide (dfFund ≠ [])
    let joined :=
      if hasFund then leftJoin df_price dfFund
      else df_price.map fun p => ⟨p, Option.none⟩
    let inUniverse := joined.filter fun j => ALL_SYMBOLS.contains j.price.symbol
    let filtered := applyFilters ks plan hasFund inUniverse
    let riskRows := windowed plan daily
    (filtered.map (buildResult riskRows), [])

/-- Embedding of `integrate` with the four filter blocks in source order. -/
noncomputable def integrate (plan : QueryPlan) (df_price : List PriceAggRow)
    (df_fund : List FundRow) (daily : List DailyRow) :
    List ResultRow × Str :=
  integrateWith allFilterKinds plan df_price df_fund daily

/-- Embedding of `_parse_time_window` (analyzer.py lines 318-332) on the
lowercased query text.  `relativedelta(years=1)` before 2022-12-31 is
2021-12-31. -/
def _parse_time_window (t : Str) : PDate × PDate × Option ℤ :=
  if isSub ("2012").toList t then (⟨2012, 1, 1⟩, ⟨2012, 12, 31⟩, some 2012)
  else if isSub ("2022").toList t then (⟨2022, 1, 1⟩, ⟨2022, 12, 31⟩, some 2022)
  else if isSub ("last year").toList t || isSub ("past year").toList t then
    (⟨2021, 12, 31⟩, ⟨2022, 12, 31⟩, some 2022)
  else (⟨2012, 1, 1⟩, ⟨2022, 12, 31⟩, Option.none)

/-- The comparison-operator class `[<≤=]` of the debt-equity and P/E
regexes. -/
def ltOps (c : Char) : Bool := (c = '<') || (c = '≤') || (c = '=')

/-- The comparison-operator class `[>≥=]` of the ROE regex. -/
def gtOps (c : Char) : Bool := (c = '>') || (c = '≥') || (c = '=')

/-- The capture class `[0-9.]`. -/
def numDotClass (c : Char) : Bool := isDigit c || (c = '.')

/-- Literal-prefix consumption for the regex embeddings. -/
def eatLit (lit s : Str) : Option Str :=
  if lit.isPrefixOf s then some (s.drop lit.length) else Option.none

/-- Models the regex tail `\s*OPS+\s*([0-9.]+)` (greedy quantifiers over
pairwise disjoint character classes need no backtracking): returns the
captured `[0-9.]+` group. -/
def tailCapture (ops : Char → Bool) (s : Str) : Option Str :=
  let s1 := s.dropWhile isWS
  if s1.takeWhile ops = [] then Option.none
  else
    let s2 := (s1.dropWhile ops).dropWhile isWS
    let cap := s2.takeWhile numDotClass
    if cap = [] then Option.none else some cap

/-- One anchored attempt of `debt[- ]equity\s*[<≤=]+\s*([0-9.]+)`
(analyzer.py line 347). -/
def matchDEAt (s : Str) : Option Str :=
  match eatLit ("debt").toList s with
  | Option.none => Option.none
  | some s1 =>
    match s1 with
    | '-' :: s2 =>
      match eatLit ("equity").toList s2 with
      | Option.none => Option.none
      | some s3 => tailCapture ltOps s3
    | ' ' :: s2 =>
      match eatLit ("equity").toList s2 with
      | Option.none => Option.none
      | some s3 => tailCapture ltOps s3
    | _ => Option.none

/-- One anchored attempt of `roe\s*[>≥=]+\s*([0-9.]+)`
(analyzer.py line 351). -/
def matchROEAt (s : Str) : Option Str :=
  match eatLit ("roe").toList s with
  | Option.none => Option.none
  | some s1 => tailCapture gtOps s1

/-- One anchored attempt of `(?:p\/?e|pe)\s*[<≤=]+\s*([0-9.]+)`
(analyzer.py line 355): `p`, an optional `/`, then `e`. -/
def matchPEAt (s : Str) : Option Str :=
  match s with
  | 'p' :: '/' :: 'e' :: r => tailCapture ltOps r
  | 'p' :: 'e' :: r => tailCapture ltOps r
  | _ => Option.none

/-- Models `re.search` of an anchored matcher: the match at the leftmost
position where the matcher succeeds (every position, the end included,
is tried in order). -/
def searchAux (m : Str → Option Str) : Str → Option Str
  | [] => m []
  | c :: rest =>
    match m (c :: rest) with
    | some r => some r
    | Option.none => searchAux m rest

/-- The maximal `%`-free region, for the `[^%]*` piece of the growth
regex. -/
def pctRegion (s : Str) : Str := s.takeWhile fun c => decide (c ≠ '%')

/-- Word characters of the regex `\b` boundary. -/
def isWordChar (c : Char) : Bool :=
  isDigit c || ('a' ≤ c && c ≤ 'z') || ('A' ≤ c && c ≤ 'Z') || (c = '_')

/-- One anchored attempt of the first growth alternative
`(\d+)\s*%[^%]*price` (analyzer.py line 340): digits, optional space, a
percent sign, then `price` before any further percent sign. -/
def matchGrowthA (s : Str) : Option Str :=
  let ds := s.takeWhile isDigit
  if ds = [] then Option.none
  else
    match (s.drop ds.length).dropWhile isWS with
    | '%' :: rest =>
      if isSub ("price").toList (pctRegion rest) then some ds else Option.none
    | _ => Option.none

/-- One anchored attempt of the second growth alternative
`\bprice growth\s*(\d+)\s*%` (analyzer.py line 340); `prev` is the
character before the position, for the word boundary. -/
def matchGrowthB (prev : Option Char) (s : Str) : Option Str :=
  let boundary : Bool := match prev with
    | Option.none => true
    | some c => ¬ isWordChar c
  if ¬ boundary then Option.none
  else
    match eatLit ("price growth").toList s with
    | Option.none => Option.none
    | some s1 =>
      let s2 := s1.dropWhile isWS
      let ds := s2.takeWhile isDigit
      if ds = [] then Option.none
      else
        match (s2.drop ds.length).dropWhile isWS with
        | '%' :: _ => some ds
        | _ => Option.none

/-- Leftmost search of the growth regex, alternatives tried in order at
each position. -/
def searchGrowthAux (prev : Option Char) : Str → Option Str
  | [] =>
    match matchGrowthA [] with
    | some r => some r
    | Option.none => matchGrowthB prev []
  | c :: rest =>
    match matchGrowthA (c :: rest) with
    | some r => some r
    | Option.none =>
      match matchGrowthB prev (c :: rest) with
      | some r => some r
      | Option.none => searchGrowthAux (some c) rest

/-- The captured digits of the growth regex, if it matches. -/
def searchGrowth (t : Str) : Option Str := searchGrowthAux Option.none t

/-- Models `float(captured_group)`: a finite value, or an error
(`ValueError`) when the capture is not a valid float literal, such as
`"1.2.3"` or `"."` from the class `[0-9.]+`. -/
def floatOfCapture (cap : Str) : Except Unit ℚ :=
  match parsePyFloat cap with
  | some (PyNum.fin q) => Except.ok q
  | _ => Except.error ()

/-- Embedding of `_parse_thresholds` (analyzer.py lines 335-358) on the
lowercased text; a `float()` failure on a captured group propagates as
the `ValueError` the source raises. -/
def _parse_thresholds (t : Str) :
    Except Unit (Option ℚ × Option ℚ × Option ℚ × Option ℚ) := do
  let ming : Option ℚ ←
    match searchGrowth t with
    | Option.none => pure Option.none
    | some ds => do
      let q ← floatOfCapture ds
      pure (some (q / 100))
  let maxde : Option ℚ ←
    match searchAux matchDEAt t with
    | Option.none => pure Option.none
    | some ds => do
      let q ← floatOfCapture ds
      pure (some q)
  let minroe : Option ℚ ←
    match searchAux matchROEAt t with
    | Option.none => pure Option.none
    | some ds => do
      let q ← floatOfCapture ds
      pure (some q)
  let maxpe : Option ℚ ←
    match searchAux matchPEAt t with
    | Option.none => pure Option.none
    | some ds => do
      let q ← floatOfCapture ds
      pure (some q)
  pure (ming, maxde, minroe, maxpe)

/-- Embedding of `_detect_symbols` (analyzer.py lines 361-364):
case-insensitive substring match against `ALL_SYMBOLS`; an empty match
list becomes `None`. -/
def _detect_symbols (text : Str) : Option (List Str) :=
  let up := upperStr text
  let syms := ALL_SYMBOLS.filter fun s => isSub s up
  if syms = [] then Option.none else some syms

/-- Embedding of `analyze_query_fallback` (analyzer.py lines 367-384);
an uncaught `ValueError` from `_parse_thresholds` propagates. -/
def analyze_query_fallback (q : Str) : Except Unit QueryPlan := do
  let (s, e, fy) := _parse_time_window (lowerStr q)
  let (ming, maxde, minroe, maxpe) ← _parse_thresholds (lowerStr q)
  let syms := _detect_symbols q
  pure
    { start_date := s, end_date := e, symbols := syms,
      min_price_growth := ming, max_debt_equity := maxde,
      min_roe := minroe, max_pe := maxpe, fy := fy }

/-- The characters the validator's forbidden patterns are built from:
lowercase ASCII letters and the underscore. -/
def patChars : List Char := ("abcdefghijklmnopqrstuvwxyz_").toList

/-- Membership in the forbidden-pattern character class. -/
def patChar (c : Char) : Bool := patChars.contains c

/-- The characters a rendered date, int or fiscal-year number can
contain: digits and the minus/hyphen sign. -/
def numRenderChars : List Char := '-' :: digitChars

/-- The stripped lowercased head template of the price statement. -/
def priceL1 : Str := stripLeft (lowerStr priceT1)

/-- The stripped lowercased tail template of the price statement. -/
def priceL4 : Str := stripRight (lowerStr priceT4)

/-- The lowercased head template of the fundamentals statement, split
before its trailing ` 1 = 1` text. -/
def fundCore : Str :=
  ("select\n            symbol,\n            fy,\n            roe,\n            debt_equity_ratio,\n            current_ratio,\n            pe_ratio,\n            pb_ratio,\n            market_cap\n        from fundamentals\n        where").toList

/-- The letter-free tail of the fundamentals head template. -/
def fundSep : Str := (" 1 = 1\n        ").toList

/-- The patterns the validator forbids in a price statement. -/
def pricePatterns : List Str := dangerousKeywords ++ fundamentalFields

/-- The patterns the validator forbids in a fundamentals statement
(the broken date-name exemption excludes none of them). -/
def fundPatterns : List Str := dangerousKeywords ++ priceFields

/-! ## String machinery -/

theorem isSub_iff {p s : Str} : isSub p s = true ↔ p <:+: s := by
  induction s with
  | nil =>
    simp [isSub, List.isPrefixOf_iff_prefix, List.infix_nil, List.prefix_nil]
  | cons c rest ih =>
    simp [isSub, List.isPrefixOf_iff_prefix, ih, List.infix_cons_iff]

theorem isSub_eq_false_iff {p s : Str} : isSub p s = false ↔ ¬ p <:+: s := by
  rw [← isSub_iff]
  simp

theorem prefix_append_cases {p a b : Str} (h : p <+: a ++ b) :
    p <+: a ∨ ∃ b1, b1 <+: b ∧ p = a ++ b1 := by
  induction a generalizing p with
  | nil => exact Or.inr ⟨p, by simpa using h, by simp⟩
  | cons x a' ih =>
    match p with
    | [] => exact Or.inl (by simp)
    | y :: p' =>
      rw [List.cons_append, List.cons_prefix_cons] at h
      obtain ⟨rfl, h'⟩ := h
      rcases ih h' with h1 | ⟨b1, hb1, rfl⟩
      · exact Or.inl (List.cons_prefix_cons.mpr ⟨rfl, h1⟩)
      · exact Or.inr ⟨b1, hb1, rfl⟩

theorem infix_append_cases {p a b : Str} (h : p <:+: a ++ b) :
    p <:+: a ∨ p <:+: b ∨
      ∃ a1 b1, a1 ≠ [] ∧ b1 ≠ [] ∧ p = a1 ++ b1 ∧ a1 <:+ a ∧ b1 <+: b := by
  induction a generalizing p with
  | nil => exact Or.inr (Or.inl (by simpa using h))
  | cons x a' ih =>
    rw [List.cons_append, List.infix_cons_iff] at h
    rcases h with hpre | htail
    · match p, hpre with
      | [], _ => exact Or.inl ⟨[], x :: a', by simp⟩
      | y :: p', hpre =>
        rw [List.cons_prefix_cons] at hpre
        obtain ⟨rfl, h'⟩ := hpre
        rcases prefix_append_cases h' with h1 | ⟨b1, hb1, rfl⟩
        · exact Or.inl (List.cons_prefix_cons.mpr ⟨rfl, h1⟩).isInfix
        · by_cases hb : b1 = []
          · subst hb
            exact Or.inl (by simp)
          · exact Or.inr (Or.inr
              ⟨y :: a', b1, by simp, hb, by simp, List.suffix_refl _, hb1⟩)
    · rcases ih htail with h1 | h2 | ⟨a1, b1, hne1, hne2, rfl, hsuf, hpre2⟩
      · exact Or.inl (h1.trans (List.infix_cons_iff.mpr (Or.inr (List.infix_refl a'))))
      · exact Or.inr (Or.inl h2)
      · exact Or.inr (Or.inr
          ⟨a1, b1, hne1, hne2, rfl, hsuf.trans (List.suffix_cons x a'), hpre2⟩)

theorem infix_of_disjoint_right {p a b : Str} (hp : p ≠ [])
    (ha : ∀ c ∈ a, c ∉ p) (h : p <:+: a ++ b) : p <:+: b := by
  rcases infix_append_cases h with h1 | h2 | ⟨a1, b1, hne1, _, rfl, hsuf, _⟩
  · obtain ⟨c, hc⟩ := List.exists_mem_of_ne_nil p hp
    exact absurd hc (ha c (h1.subset hc))
  · exact h2
  · obtain ⟨c, hc⟩ := List.exists_mem_of_ne_nil a1 hne1
    exact absurd (List.mem_append_left b1 hc) (ha c (hsuf.subset hc))

theorem infix_of_disjoint_left {p a b : Str} (hp : p ≠ [])
    (hb : ∀ c ∈ b, c ∉ p) (h : p <:+: a ++ b) : p <:+: a := by
  rcases infix_append_cases h with h1 | h2 | ⟨a1, b1, hne1, hne2, rfl, _, hpre⟩
  · exact h1
  · obtain ⟨c, hc⟩ := List.exists_mem_of_ne_nil p hp
    exact absurd hc (hb c (h2.subset hc))
  · obtain ⟨c, hc⟩ := List.exists_mem_of_ne_nil b1 hne2
    exact absurd (List.mem_append_right a1 hc) (hb c (hpre.subset hc))

theorem infix_split3 {p x v y : Str} (hp : p ≠ []) (hv0 : v ≠ [])
    (hv : ∀ c ∈ v, c ∉ p) (h : p <:+: x ++ (v ++ y)) : p <:+: x ∨ p <:+: y := by
  rcases infix_append_cases h with h1 | h2 | ⟨a1, b1, _, hne2, rfl, _, hpre⟩
  · exact Or.inl h1
  · exact Or.inr (infix_of_disjoint_right hp hv h2)
  · rcases prefix_append_cases hpre with hb | ⟨b2, hb2, rfl⟩
    · obtain ⟨c, hc⟩ := List.exists_mem_of_ne_nil b1 hne2
      exact absurd (List.mem_append_right a1 hc) (hv c (hb.subset hc))
    · obtain ⟨c, hc⟩ := List.exists_mem_of_ne_nil v hv0
      exact absurd (List.mem_append_right a1 (List.mem_append_left b2 hc)) (hv c hc)

theorem lowerStr_append (a b : Str) :
    lowerStr (a ++ b) = lowerStr a ++ lowerStr b := List.map_append _ a b

theorem infix_stripLeft {p s : Str} (hp : p ≠ [])
    (hws : ∀ c ∈ p, isWS c = false) (h : p <:+: s) : p <:+: stripLeft s := by
  rw [← List.takeWhile_append_dropWhile isWS s] at h
  refine infix_of_disjoint_right hp ?_ h
  intro c hc hcp
  have h1 := List.mem_takeWhile_imp hc
  have h2 := hws c hcp
  simp [h1] at h2

theorem stripRight_decomp (t : Str) :
    t = stripRight t ++ (t.reverse.takeWhile isWS).reverse := by
  conv_lhs => rw [← List.reverse_reverse t,
    ← List.takeWhile_append_dropWhile isWS t.reverse]
  rw [List.reverse_append]
  rfl

theorem infix_stripRight {p t : Str} (hp : p ≠ [])
    (hws : ∀ c ∈ p, isWS c = false) (h : p <:+: t) : p <:+: stripRight t := by
  rw [stripRight_decomp t] at h
  refine infix_of_disjoint_left hp ?_ h
  intro c hc hcp
  have h1 : c ∈ t.reverse.takeWhile isWS := by
    simpa using hc
  have h2 := List.mem_takeWhile_imp h1
  have h3 := hws c hcp
  simp [h2] at h3

theorem infix_strip {p s : Str} (hp : p ≠ [])
    (hws : ∀ c ∈ p, isWS c = false) (h : p <:+: s) : p <:+: strip s :=
  infix_stripRight hp hws (infix_stripLeft hp hws h)

theorem dropWhile_append_notall {a b : Str}
    (h : ∃ c ∈ a, isWS c = false) :
    (a ++ b).dropWhile isWS = a.dropWhile isWS ++ b := by
  induction a with
  | nil => simp at h
  | cons x a' ih =>
    by_cases hx : isWS x
    · obtain ⟨c, hc, hcw⟩ := h
      rcases List.mem_cons.mp hc with rfl | hc'
      · simp [hx] at hcw
      · simp only [List.cons_append, List.dropWhile_cons, hx, if_true]
        exact ih ⟨c, hc', hcw⟩
    · simp [List.dropWhile_cons, hx]

theorem dropWhile_append_allws {a b : Str}
    (h : ∀ c ∈ a, isWS c = true) :
    (a ++ b).dropWhile isWS = b.dropWhile isWS := by
  induction a with
  | nil => simp
  | cons x a' ih =>
    simp only [List.cons_append, List.dropWhile_cons, h x (by simp), if_true]
    exact ih fun c hc => h c (List.mem_cons_of_mem x hc)

theorem stripRight_append_notall {a b : Str}
    (h : ∃ c ∈ b, isWS c = false) :
    stripRight (a ++ b) = a ++ stripRight b := by
  unfold stripRight
  rw [List.reverse_append, dropWhile_append_notall (by
    obtain ⟨c, hc, hcw⟩ := h
    exact ⟨c, List.mem_reverse.mpr hc, hcw⟩)]
  rw [List.reverse_append, List.reverse_reverse]

theorem stripRight_append_allws {a b : Str}
    (h : ∀ c ∈ b, isWS c = true) :
    stripRight (a ++ b) = stripRight a := by
  unfold stripRight
  rw [List.reverse_append, dropWhile_append_allws (by
    intro c hc
    exact h c (List.mem_reverse.mp hc))]

theorem stripRight_eq_self {s : Str}
    (h : ∀ c ∈ s, isWS c = false) : stripRight s = s := by
  unfold stripRight
  have : s.reverse.dropWhile isWS = s.reverse := by
    match hr : s.reverse with
    | [] => simp
    | c :: r =>
      rw [List.dropWhile_cons]
      have hc : c ∈ s := by
        rw [← List.mem_reverse, hr]; simp
      simp [h c hc]
  rw [this, List.reverse_reverse]

theorem strip_concat {a m b : Str} (ha : ∃ c ∈ a, isWS c = false)
    (hb : ∃ c ∈ b, isWS c = false) :
    strip (a ++ (m ++ b)) = stripLeft a ++ (m ++ stripRight b) := by
  unfold strip stripLeft
  rw [dropWhile_append_notall ha, ← List.append_assoc,
    stripRight_append_notall hb, List.append_assoc]

theorem strip_concat_ws {a m b : Str} (ha : ∃ c ∈ a, isWS c = false)
    (hm : ∃ c ∈ m, isWS c = false) (hb : ∀ c ∈ b, isWS c = true) :
    strip (a ++ (m ++ b)) = stripLeft a ++ stripRight m := by
  unfold strip stripLeft
  rw [dropWhile_append_notall ha, ← List.append_assoc,
    stripRight_append_allws hb, stripRight_append_notall hm]

theorem isSub_append_left {p a : Str} (b : Str)
    (h : isSub p a = true) : isSub p (a ++ b) = true := by
  rw [isSub_iff] at h ⊢
  exact h.trans ⟨[], b, by simp⟩

theorem isSub_append_right {p b : Str} (a : Str)
    (h : isSub p b = true) : isSub p (a ++ b) = true := by
  rw [isSub_iff] at h ⊢
  exact h.trans ⟨a, [], by simp⟩

/-- C10: for every SQL string whose lowercased text contains one of the
seven mutating keywords (drop, delete, insert, update, truncate, alter,
create) as a plain substring anywhere — inside a longer identifier
included — `validate_sql_query` returns `False` for both the price and
the fundamentals query type. -/
theorem C10_validator_rejects_mutating_keyword (sql : Str)
    (h : ∃ k ∈ dangerousKeywords, isSub k (lowerStr sql) = true) :
    validate_sql_query sql (("price").toList) = false ∧
      validate_sql_query sql (("fund").toList) = false := by
  obtain ⟨k, hk, hsub⟩ := h
  have hprops : ∀ k ∈ dangerousKeywords,
      k ≠ [] ∧ ∀ c ∈ k, isWS c = false := by decide
  obtain ⟨hkne, hkws⟩ := hprops k hk
  have hsl : isSub k (strip (lowerStr sql)) = true := by
    rw [isSub_iff] at hsub ⊢
    exact infix_strip hkne hkws hsub
  have hany : dangerousKeywords.any
      (fun p => isSub p (strip (lowerStr sql))) = true :=
    List.any_eq_true.mpr ⟨k, hk, hsl⟩
  constructor <;>
    · unfold validate_sql_query
      by_cases hnil : sql = []
      · simp [hnil]
      · simp only [hnil, if_false, if_neg, hany]
        split
        · rfl
        · simp [hany]

theorem digitChar_mem (n : ℕ) : digitChar n ∈ digitChars := by
  unfold digitChar
  match n with
  | 0 | 1 | 2 | 3 | 4 | 5 | 6 | 7 | 8 | 9 => decide
  | (m + 10) =>
    show List.getD digitChars (m + 10) '0' ∈ digitChars
    unfold digitChars
    simp only [List.getD_cons_succ, List.getD_nil]
    decide

theorem natDigitsAux_chars (fuel : ℕ) :
    ∀ n, ∀ c ∈ natDigitsAux fuel n, c ∈ digitChars := by
  induction fuel with
  | zero =>
    intro n c hc
    simp [natDigitsAux] at hc
  | succ f ih =>
    intro n c hc
    by_cases h : n < 10
    · simp only [natDigitsAux, if_pos h, List.mem_singleton] at hc
      subst hc
      exact digitChar_mem n
    · simp only [natDigitsAux, if_neg h, List.mem_append,
        List.mem_singleton] at hc
      rcases hc with h1 | h2
      · exact ih (n / 10) c h1
      · subst h2
        exact digitChar_mem (n % 10)

theorem natDigits_chars (n : ℕ) : ∀ c ∈ natDigits n, c ∈ digitChars :=
  natDigitsAux_chars (n + 1) n

theorem natDigits_ne_nil (n : ℕ) : natDigits n ≠ [] := by
  show natDigitsAux (n + 1) n ≠ []
  by_cases h : n < 10 <;> simp [natDigitsAux, h]

theorem padZero_chars {s : Str} (k : ℕ) (hs : ∀ c ∈ s, c ∈ digitChars) :
    ∀ c ∈ padZero k s, c ∈ digitChars := by
  intro c hc
  rcases List.mem_append.mp hc with h1 | h2
  · rw [List.eq_of_mem_replicate h1]
    decide
  · exact hs c h2

theorem dateStr_chars (d : PDate) : ∀ c ∈ dateStr d, c ∈ numRenderChars := by
  intro c hc
  unfold dateStr at hc
  have hd : ∀ n k, ∀ c ∈ padZero k (natDigits n), c ∈ numRenderChars := by
    intro n k c hc
    exact List.mem_cons_of_mem '-' (padZero_chars k (natDigits_chars n) c hc)
  simp only [List.append_assoc, List.mem_append] at hc
  rcases hc with h | h | h | h | h
  · exact hd d.year 4 c h
  · simp only [List.mem_singleton] at h
    subst h
    decide
  · exact hd d.month 2 c h
  · simp only [List.mem_singleton] at h
    subst h
    decide
  · exact hd d.day 2 c h

theorem intStr_chars (i : ℤ) : ∀ c ∈ intStr i, c ∈ numRenderChars := by
  intro c hc
  unfold intStr at hc
  split at hc
  · rcases List.mem_cons.mp hc with rfl | h
    · decide
    · exact List.mem_cons_of_mem '-' (natDigits_chars i.natAbs c h)
  · exact List.mem_cons_of_mem '-' (natDigits_chars i.natAbs c hc)

theorem numRender_props :
    ∀ c ∈ numRenderChars, isWS c = false ∧ lowerChar c = c ∧ patChar c = false := by
  decide

theorem lowerStr_eq_self {s : Str} (h : ∀ c ∈ s, lowerChar c = c) :
    lowerStr s = s := by
  induction s with
  | nil => rfl
  | cons c r ih =>
    show lowerChar c :: lowerStr r = c :: r
    rw [h c (by simp), ih fun x hx => h x (List.mem_cons_of_mem c hx)]

theorem lowerStr_dateStr (d : PDate) : lowerStr (dateStr d) = dateStr d :=
  lowerStr_eq_self fun c hc => (numRender_props c (dateStr_chars d c hc)).2.1

theorem lowerStr_intStr (i : ℤ) : lowerStr (intStr i) = intStr i :=
  lowerStr_eq_self fun c hc => (numRender_props c (intStr_chars i c hc)).2.1

theorem dateStr_ne_nil (d : PDate) : dateStr d ≠ [] := by
  unfold dateStr
  intro h
  have hm : '-' ∈ ([] : Str) := by
    rw [← h]
    simp
  simp at hm

theorem intStr_ne_nil (i : ℤ) : intStr i ≠ [] := by
  unfold intStr
  split
  · simp
  · exact natDigits_ne_nil i.natAbs

theorem pat_disjoint {p : Str} (hpat : p.all patChar = true)
    {v : Str} (hv : ∀ c ∈ v, patChar c = false) : ∀ c ∈ v, c ∉ p := by
  intro c hc hcp
  have h1 := List.all_eq_true.mp hpat c hcp
  rw [hv c hc] at h1
  cases h1

theorem patChar_mem {c : Char} (h : patChar c = true) : c ∈ patChars := by
  unfold patChar at h
  simpa using h

theorem pat_ws_free {p : Str} (hpat : p.all patChar = true) :
    ∀ c ∈ p, isWS c = false := by
  intro c hc
  have h1 := patChar_mem (List.all_eq_true.mp hpat c hc)
  have h2 : ∀ c ∈ patChars, isWS c = false := by decide
  exact h2 c h1

theorem strip_sql_price (plan : QueryPlan) :
    strip (lowerStr (sql_price_of plan)) =
      priceL1 ++ (dateStr plan.start_date ++ (lowerStr priceT2 ++
        (dateStr plan.end_date ++ (lowerStr priceT3 ++
          (lowerStr (whereSymbols plan.symbols) ++ priceL4))))) := by
  have h := strip_concat
    (a := lowerStr priceT1)
    (m := dateStr plan.start_date ++ (lowerStr priceT2 ++
      (dateStr plan.end_date ++ (lowerStr priceT3 ++
        lowerStr (whereSymbols plan.symbols)))))
    (b := lowerStr priceT4)
    ⟨'s', by decide, by decide⟩ ⟨'g', by decide, by decide⟩
  unfold sql_price_of
  simp only [lowerStr_append, List.append_assoc, lowerStr_dateStr]
  simp only [List.append_assoc] at h
  rw [h]
  rfl

theorem strip_sql_fund (plan : QueryPlan) :
    strip (lowerStr (sql_fund_of plan)) =
      fundCore ++ (fundSep ++ stripRight (lowerStr (fyFilter plan.fy))) := by
  have hm : ∃ c ∈ lowerStr (fyFilter plan.fy), isWS c = false := by
    rcases plan.fy with _ | y
    · exact ⟨'a', by decide, by decide⟩
    · refine ⟨'a', ?_, by decide⟩
      show 'a' ∈ lowerStr (("AND fy = ").toList ++ intStr y)
      rw [lowerStr_append]
      exact List.mem_append_left _ (by decide)
  have h := strip_concat_ws (a := lowerStr fundT1)
    (m := lowerStr (fyFilter plan.fy)) (b := lowerStr fundT2)
    ⟨'s', by decide, by decide⟩ hm (by decide)
  unfold sql_fund_of
  simp only [lowerStr_append, List.append_assoc]
  simp only [List.append_assoc] at h
  rw [h]
  rw [show stripLeft (lowerStr fundT1) = fundCore ++ fundSep from by decide]
  rw [List.append_assoc]

theorem no_pat_in_quoted {p : Str} (hp : p ≠ []) (hpat : p.all patChar = true)
    (hsym : ∀ s ∈ ALL_SYMBOLS, ¬ p <:+: lowerStr s)
    {Z : Str} (hZ : ¬ p <:+: Z) :
    ∀ l, (∀ s ∈ l, s ∈ ALL_SYMBOLS) → ¬ p <:+: lowerStr (quotedJoin l) ++ Z := by
  intro l
  induction l with
  | nil =>
    intro _ h
    exact hZ (by simpa [quotedJoin, lowerStr] using h)
  | cons s rs ih =>
    intro hl h
    have hq : ∀ c ∈ ['\''], c ∉ p := pat_disjoint hpat (by decide)
    have hqcs : ∀ c ∈ ['\'', ',', ' '], c ∉ p := pat_disjoint hpat (by decide)
    have hs : s ∈ ALL_SYMBOLS := hl s (by simp)
    rcases rs with _ | ⟨r, rs'⟩
    · have e : lowerStr (quotedJoin [s]) ++ Z =
          ['\''] ++ (lowerStr s ++ (['\''] ++ Z)) := by
        show lowerStr (['\''] ++ s ++ ['\'']) ++ Z = _
        simp only [lowerStr_append, List.append_assoc]
        rw [show lowerStr ['\''] = ['\''] from by decide]
      rw [e] at h
      have h' := infix_of_disjoint_right hp hq h
      rcases infix_split3 hp (by simp) hq h' with hs' | hz
      · exact hsym s hs hs'
      · exact hZ hz
    · have e : lowerStr (quotedJoin (s :: r :: rs')) ++ Z =
          ['\''] ++ (lowerStr s ++ (['\'', ',', ' '] ++
            (lowerStr (quotedJoin (r :: rs')) ++ Z))) := by
        show lowerStr (['\''] ++ s ++ (['\'', ',', ' '] ++ quotedJoin (r :: rs'))) ++ Z = _
        simp only [lowerStr_append, List.append_assoc]
        rw [show lowerStr ['\''] = ['\''] from by decide,
          show lowerStr ['\'', ',', ' '] = ['\'', ',', ' '] from by decide]
      rw [e] at h
      have h' := infix_of_disjoint_right hp hq h
      rcases infix_split3 hp (by simp) hqcs h' with hs' | hz
      · exact hsym s hs hs'
      · exact ih (fun x hx => hl x (List.mem_cons_of_mem s hx)) hz

theorem no_pat_in_price {p : Str} (hp : p ≠ []) (hpat : p.all patChar = true)
    (h1 : ¬ p <:+: priceL1) (h2 : ¬ p <:+: lowerStr priceT2)
    (h3 : ¬ p <:+: ("and symbol in").toList) (h4 : ¬ p <:+: priceL4)
    (hsym : ∀ s ∈ ALL_SYMBOLS, ¬ p <:+: lowerStr s)
    (plan : QueryPlan)
    (hplan : ∀ l, plan.symbols = some l → ∀ s ∈ l, s ∈ ALL_SYMBOLS) :
    ¬ p <:+: strip (lowerStr (sql_price_of plan)) := by
  rw [strip_sql_price plan]
  intro h
  have hd1 := pat_disjoint hpat
    (fun c hc => (numRender_props c (dateStr_chars plan.start_date c hc)).2.2)
  have hd2 := pat_disjoint hpat
    (fun c hc => (numRender_props c (dateStr_chars plan.end_date c hc)).2.2)
  rcases infix_split3 hp (dateStr_ne_nil plan.start_date) hd1 h with hA | h
  · exact h1 hA
  rcases infix_split3 hp (dateStr_ne_nil plan.end_date) hd2 h with hB | h
  · exact h2 hB
  have hT3 : ∀ c ∈ lowerStr priceT3, c ∉ p := pat_disjoint hpat (by decide)
  have h := infix_of_disjoint_right hp hT3 h
  rcases hsyms : plan.symbols with _ | l
  · rw [hsyms] at h
    exact h4 (by simpa [whereSymbols, lowerStr] using h)
  by_cases hl : l = []
  · rw [hsyms] at h
    subst hl
    exact h4 (by simpa [whereSymbols, lowerStr] using h)
  rw [hsyms,
    show whereSymbols (some l) = ("AND symbol IN (").toList ++ quotedJoin l ++ [')']
      from by simp [whereSymbols, hl]] at h
  rw [lowerStr_append, lowerStr_append,
    show lowerStr (("AND symbol IN (").toList) = ("and symbol in").toList ++ [' ', '(']
      from by decide,
    show lowerStr [')'] = [')'] from by decide] at h
  simp only [List.append_assoc] at h
  rcases infix_split3 hp (by simp) (pat_disjoint hpat (by decide)) h with hC | h
  · exact h3 hC
  have hZ : ¬ p <:+: [')'] ++ priceL4 := by
    intro hz
    exact h4 (infix_of_disjoint_right hp (pat_disjoint hpat (by decide)) hz)
  exact no_pat_in_quoted hp hpat hsym hZ l (hplan l hsyms) h

theorem no_pat_in_fund {p : Str} (hp : p ≠ []) (hpat : p.all patChar = true)
    (h1 : ¬ p <:+: fundCore)
    (h2 : ¬ p <:+: ("and fy = ").toList)
    (h3 : ¬ p <:+: stripRight (lowerStr (fyFilter Option.none)))
    (plan : QueryPlan) :
    ¬ p <:+: strip (lowerStr (sql_fund_of plan)) := by
  rw [strip_sql_fund plan]
  intro h
  have hsep : ∀ c ∈ fundSep, c ∉ p := pat_disjoint hpat (by decide)
  rcases infix_split3 hp (by decide) hsep h with hA | h
  · exact h1 hA
  rcases hfy : plan.fy with _ | y
  · rw [hfy] at h
    exact h3 h
  rw [hfy] at h
  have e : stripRight (lowerStr (fyFilter (some y))) =
      ("and fy = ").toList ++ intStr y := by
    show stripRight (lowerStr (("AND fy = ").toList ++ intStr y)) = _
    rw [lowerStr_append, lowerStr_intStr,
      show lowerStr (("AND fy = ").toList) = ("and fy = ").toList from by decide]
    obtain ⟨c, hc⟩ := List.exists_mem_of_ne_nil _ (natDigits_ne_nil y.natAbs)
    rw [stripRight_append_notall ⟨c, ?_, ?_⟩]
    · rw [stripRight_eq_self
        (fun c hc => (numRender_props c (intStr_chars y c hc)).1)]
    · unfold intStr
      split
      · exact List.mem_cons_of_mem '-' hc
      · exact hc
    · have := natDigits_chars y.natAbs c hc
      exact (numRender_props c (List.mem_cons_of_mem '-' this)).1
  rw [e] at h
  have hnum : ∀ c ∈ intStr y, c ∉ p := pat_disjoint hpat
    (fun c hc => (numRender_props c (intStr_chars y c hc)).2.2)
  exact h2 (infix_of_disjoint_left hp hnum h)

/-- C8 counterexample: the claim quantifies over every QueryPlan, but the
dataclass admits symbol lists outside the tracked universe; with
`symbols = ["ROE"]` the generated price statement embeds `'ROE'` in its
IN-clause, so it contains the fundamentals-only field name `roe` and the
validator rejects it. -/
theorem C8_counterexample :
    isSub (("roe").toList)
        (lowerStr (sql_price_of
          ⟨⟨2022, 1, 1⟩, ⟨2022, 12, 31⟩, some [("ROE").toList], Option.none,
            Option.none, Option.none, Option.none, Option.none⟩)) = true ∧
      validate_sql_query
        (sql_price_of
          ⟨⟨2022, 1, 1⟩, ⟨2022, 12, 31⟩, some [("ROE").toList], Option.none,
            Option.none, Option.none, Option.none, Option.none⟩)
        (("price").toList) = false := by
  decide

/-- C8 (amended): for every QueryPlan whose symbol list, when present, is
drawn from the tracked universe `ALL_SYMBOLS`, the two statements of the
deterministic SQL generator are cross-table clean — the price statement
contains no fundamentals-only field name and the fundamentals statement
no price-only field name — and both pass `validate_sql_query` for their
respective query types. -/
theorem C8_sql_statements_clean (plan : QueryPlan)
    (hplan : ∀ l, plan.symbols = some l → ∀ s ∈ l, s ∈ ALL_SYMBOLS) :
    (∀ f ∈ fundamentalFields, isSub f (lowerStr (sql_price_of plan)) = false) ∧
      (∀ f ∈ priceFields, isSub f (lowerStr (sql_fund_of plan)) = false) ∧
      validate_sql_query (sql_price_of plan) (("price").toList) = true ∧
      validate_sql_query (sql_fund_of plan) (("fund").toList) = true := by
  have hallP : ∀ p ∈ pricePatterns, p ≠ [] ∧ p.all patChar = true ∧
      isSub p priceL1 = false ∧ isSub p (lowerStr priceT2) = false ∧
      isSub p (("and symbol in").toList) = false ∧ isSub p priceL4 = false ∧
      ∀ s ∈ ALL_SYMBOLS, isSub p (lowerStr s) = false := by decide
  have hallF : ∀ p ∈ fundPatterns, p ≠ [] ∧ p.all patChar = true ∧
      isSub p fundCore = false ∧ isSub p (("and fy = ").toList) = false ∧
      isSub p (stripRight (lowerStr (fyFilter Option.none))) = false := by decide
  have hrefP : ∀ p ∈ pricePatterns,
      isSub p (strip (lowerStr (sql_price_of plan))) = false := by
    intro p hpmem
    obtain ⟨h0, h1, h2, h3, h4, h5, h6⟩ := hallP p hpmem
    rw [isSub_eq_false_iff]
    exact no_pat_in_price h0 h1 (isSub_eq_false_iff.mp h2)
      (isSub_eq_false_iff.mp h3) (isSub_eq_false_iff.mp h4)
      (isSub_eq_false_iff.mp h5)
      (fun s hs => isSub_eq_false_iff.mp (h6 s hs)) plan hplan
  have hrefF : ∀ p ∈ fundPatterns,
      isSub p (strip (lowerStr (sql_fund_of plan))) = false := by
    intro p hpmem
    obtain ⟨h0, h1, h2, h3, h4⟩ := hallF p hpmem
    rw [isSub_eq_false_iff]
    exact no_pat_in_fund h0 h1 (isSub_eq_false_iff.mp h2)
      (isSub_eq_false_iff.mp h3) (isSub_eq_false_iff.mp h4) plan
  have hcleanP : ∀ f ∈ fundamentalFields,
      isSub f (lowerStr (sql_price_of plan)) = false := by
    intro f hf
    have hm : f ∈ pricePatterns := List.mem_append_right _ hf
    obtain ⟨h0, h1, _⟩ := hallP f hm
    have hs := hrefP f hm
    rw [isSub_eq_false_iff] at hs ⊢
    intro hcon
    exact hs (infix_strip h0 (pat_ws_free h1) hcon)
  have hcleanF : ∀ f ∈ priceFields,
      isSub f (lowerStr (sql_fund_of plan)) = false := by
    intro f hf
    have hm : f ∈ fundPatterns := List.mem_append_right _ hf
    obtain ⟨h0, h1, _⟩ := hallF f hm
    have hs := hrefF f hm
    rw [isSub_eq_false_iff] at hs ⊢
    intro hcon
    exact hs (infix_strip h0 (pat_ws_free h1) hcon)
  have hdangP : dangerousKeywords.any
      (fun k => isSub k (strip (lowerStr (sql_price_of plan)))) = false := by
    rw [List.any_eq_false]
    intro k hk
    simp [hrefP k (List.mem_append_left _ hk)]
  have hdangF : dangerousKeywords.any
      (fun k => isSub k (strip (lowerStr (sql_fund_of plan)))) = false := by
    rw [List.any_eq_false]
    intro k hk
    simp [hrefF k (List.mem_append_left _ hk)]
  have hffP : fundamentalFields.any
      (fun f => isSub f (strip (lowerStr (sql_price_of plan)))) = false := by
    rw [List.any_eq_false]
    intro f hf
    simp [hrefP f (List.mem_append_right _ hf)]
  have hpfF : priceFields.any
      (fun f => isSub f (strip (lowerStr (sql_fund_of plan))) &&
        ¬ (dateParamNames.contains f)) = false := by
    rw [List.any_eq_false]
    intro f hf
    simp [hrefF f (List.mem_append_right _ hf)]
  have hneP : sql_price_of plan ≠ [] := by
    unfold sql_price_of priceT1
    simp
  have hneF : sql_fund_of plan ≠ [] := by
    unfold sql_fund_of fundT1
    simp
  have hselP : isSub (("select").toList)
      (strip (lowerStr (sql_price_of plan))) = true := by
    rw [strip_sql_price plan]
    exact isSub_append_left _ (by decide)
  have hfromP : isSub (("from").toList)
      (strip (lowerStr (sql_price_of plan))) = true := by
    rw [strip_sql_price plan]
    exact isSub_append_left _ (by decide)
  have hfpP : isSub (("from prices").toList)
      (strip (lowerStr (sql_price_of plan))) = true := by
    rw [strip_sql_price plan]
    exact isSub_append_left _ (by decide)
  have hselF : isSub (("select").toList)
      (strip (lowerStr (sql_fund_of plan))) = true := by
    rw [strip_sql_fund plan]
    exact isSub_append_left _ (by decide)
  have hfromF : isSub (("from").toList)
      (strip (lowerStr (sql_fund_of plan))) = true := by
    rw [strip_sql_fund plan]
    exact isSub_append_left _ (by decide)
  have hffF : isSub (("from fundamentals").toList)
      (strip (lowerStr (sql_fund_of plan))) = true := by
    rw [strip_sql_fund plan]
    exact isSub_append_left _ (by decide)
  refine ⟨hcleanP, hcleanF, ?_, ?_⟩
  · unfold validate_sql_query
    rw [if_neg hneP]
    simp only [hselP, hfromP, hfpP, hdangP, hffP]
    simp
  · unfold validate_sql_query
    rw [if_neg hneF]
    simp only [hselF, hfromF, hffF, hdangF, hpfF]
    simp [isSub_eq_false_iff]

/-- Witness for C8 at a plan with symbols `["TCS"]` and fiscal year 2022:
both generated statements validate and the price statement does not
contain the field name `roe`. -/
theorem C8_sql_statements_clean_witness :
    validate_sql_query
        (sql_price_of ⟨⟨2012, 1, 1⟩, ⟨2022, 12, 31⟩, some [("TCS").toList],
          Option.none, Option.none, Option.none, Option.none, some 2022⟩)
        (("price").toList) = true ∧
      validate_sql_query
        (sql_fund_of ⟨⟨2012, 1, 1⟩, ⟨2022, 12, 31⟩, some [("TCS").toList],
          Option.none, Option.none, Option.none, Option.none, some 2022⟩)
        (("fund").toList) = true ∧
      isSub (("roe").toList)
        (lowerStr (sql_price_of ⟨⟨2012, 1, 1⟩, ⟨2022, 12, 31⟩,
          some [("TCS").toList], Option.none, Option.none, Option.none,
          Option.none, some 2022⟩)) = false := by
  have hw : ∀ l, (some [("TCS").toList] : Option (List Str)) = some l →
      ∀ s ∈ l, s ∈ ALL_SYMBOLS := by
    intro l hl s hs
    cases Option.some.inj hl
    rcases List.mem_singleton.mp hs with rfl
    decide
  have h := C8_sql_statements_clean
    ⟨⟨2012, 1, 1⟩, ⟨2022, 12, 31⟩, some [("TCS").toList], Option.none,
      Option.none, Option.none, Option.none, some 2022⟩ hw
  exact ⟨h.2.2.1, h.2.2.2, h.1 _ (by decide)⟩

/-- Witness for C10 at the concrete statement
`select x from t where created_at > 0`, whose identifier `created_at`
contains the keyword `create`. -/
theorem C10_validator_rejects_mutating_keyword_witness :
    validate_sql_query (("select x from t where created_at > 0").toList)
        (("price").toList) = false ∧
      validate_sql_query (("select x from t where created_at > 0").toList)
        (("fund").toList) = false :=
  C10_validator_rejects_mutating_keyword _ (by decide)

/-- C5: the safe-cast `_safe_number` returns the absent marker (`None`) —
not zero and not an error — for every input value that fails to parse as
a number and for every non-finite float; in particular `""`, `"NaN"`,
`None` and `float("inf")` each map to the absent marker.  Since every
output field passes through this cast and its result type carries only
finite rationals or the marker, NaN/Infinity never appear in any result
field. -/
theorem C5_safe_number (v : PyVal) :
    (pyFloat v = Option.none → _safe_number v = Option.none) ∧
      (∀ n, pyFloat v = some n → n.isFinite = false →
        _safe_number v = Option.none) ∧
      _safe_number (PyVal.str (("").toList)) = Option.none ∧
      _safe_number (PyVal.str (("NaN").toList)) = Option.none ∧
      _safe_number PyVal.none = Option.none ∧
      _safe_number (PyVal.num PyNum.inf) = Option.none := by
  refine ⟨?_, ?_, by decide, by decide, by decide, by decide⟩
  · intro h
    unfold _safe_number
    rw [h]
  · intro n h hn
    unfold _safe_number
    rw [h]
    cases n with
    | fin q => simp [PyNum.isFinite] at hn
    | nan => rfl
    | inf => rfl
    | ninf => rfl

/-- Witness for C5: the safe-cast applied to the string `"NaN"` (which
`float()` parses to the non-finite NaN) and to `None` both yield the
absent marker. -/
theorem C5_safe_number_witness :
    _safe_number (PyVal.str (("NaN").toList)) = Option.none ∧
      _safe_number PyVal.none = Option.none :=
  ⟨((C5_safe_number (PyVal.str (("NaN").toList))).2.1 PyNum.nan (by decide)
      (by decide)),
    ((C5_safe_number PyVal.none).1 (by decide))⟩

/-- C3 counterexample: a NaN volatility intermediate is mapped by the
guard `float(v) if math.isfinite(v) else 0.0` (integrator.py lines
59-62) to the finite 0.0, and the output safe-cast then passes 0 through
— so the output row holds 0, not the unavailable marker, contradicting
the claim that every non-finite intermediate becomes the marker. -/
theorem C3_counterexample :
    _safe_number (PyVal.num (riskMetricGuard PyNum.nan)) = some 0 ∧
      _safe_number (PyVal.num (riskMetricGuard PyNum.nan)) ≠ Option.none := by
  constructor
  · rfl
  · simp [riskMetricGuard, _safe_number, pyFloat, PyNum.isFinite]

/-- C3 (amended): every non-finite intermediate volatility/max-drawdown
value is replaced by the finite 0.0 by the metric-stage guard, so it
reaches the output row as 0 rather than the unavailable marker; the
output safe-cast itself maps any non-finite value reaching it to the
marker, so NaN/Infinity still never appear in an output field. -/
theorem C3_nonfinite_metric_becomes_zero (v : PyNum) :
    (v.isFinite = false → riskMetricGuard v = PyNum.fin 0 ∧
      _safe_number (PyVal.num (riskMetricGuard v)) = some 0) ∧
      (v.isFinite = false → _safe_number (PyVal.num v) = Option.none) ∧
      (riskMetricGuard v).isFinite = true := by
  cases v <;>
    simp [riskMetricGuard, _safe_number, pyFloat, PyNum.isFinite]

/-- Witness for C3 (amended) at the NaN intermediate. -/
theorem C3_nonfinite_metric_becomes_zero_witness :
    (riskMetricGuard PyNum.nan = PyNum.fin 0 ∧
      _safe_number (PyVal.num (riskMetricGuard PyNum.nan)) = some 0) ∧
      _safe_number (PyVal.num PyNum.nan) = Option.none :=
  ⟨(C3_nonfinite_metric_becomes_zero PyNum.nan).1 (by decide),
    (C3_nonfinite_metric_becomes_zero PyNum.nan).2.1 (by decide)⟩

/-- C9 (code bug): on the input `debt-equity < 1.2.3` the fallback
parser's debt-equity regex captures `1.2.3` with its `[0-9.]+` group and
`float("1.2.3")` raises `ValueError`, so `analyze_query_fallback` raises
instead of returning a QueryPlan — the parser is not total as the
contract requires. -/
theorem C9_fallback_raises_on_malformed_number :
    analyze_query_fallback (("debt-equity < 1.2.3").toList) =
      Except.error () := by
  rfl

theorem ratMin_eq_min (a b : ℚ) : ratMin a b = min a b := by
  unfold ratMin
  rw [min_def]

theorem ratAbs_eq_abs (q : ℚ) : ratAbs q = |q| := by
  unfold ratAbs
  rcases lt_or_le q 0 with h | h
  · rw [if_pos h, abs_of_neg h]
  · rw [if_neg (not_lt.mpr h), abs_of_nonneg h]

theorem ratAbs_nonneg (q : ℚ) : 0 ≤ ratAbs q := by
  rw [ratAbs_eq_abs]
  exact abs_nonneg q

theorem foldl_ratMin_eq (vs : List ℚ) (v : ℚ) :
    vs.foldl ratMin v = vs.foldl min v := by
  induction vs generalizing v with
  | nil => rfl
  | cons x xs ih => simp only [List.foldl_cons, ratMin_eq_min, ih]

theorem foldl_min_le (vs : List ℚ) (v : ℚ) : vs.foldl min v ≤ v := by
  induction vs generalizing v with
  | nil => simp
  | cons x xs ih => exact le_trans (ih (min v x)) (min_le_left v x)

theorem neg_min_eq (a b : ℚ) : -(min a b) = max (-a) (-b) := by
  rcases le_total a b with h | h
  · rw [min_eq_left h, max_eq_left (neg_le_neg h)]
  · rw [min_eq_right h, max_eq_right (neg_le_neg h)]

theorem neg_foldl_min (vs : List ℚ) (v : ℚ) :
    -(vs.foldl min v) = (vs.map (fun x => -x)).foldl max (-v) := by
  induction vs generalizing v with
  | nil => rfl
  | cons x xs ih =>
    rw [List.foldl_cons, List.map_cons, List.foldl_cons, ih, neg_min_eq]

theorem cummaxFrom_pos :
    ∀ (l : List ℚ) (m : ℚ), 0 < m → (∀ p ∈ l, 0 < p) →
      ∀ x ∈ cummaxFrom m l, 0 < x := by
  intro l
  induction l with
  | nil =>
    intro m _ _ x hx
    simp [cummaxFrom] at hx
  | cons p ps ih =>
    intro m hm hl x hx
    rw [show cummaxFrom m (p :: ps) = max m p :: cummaxFrom (max m p) ps
      from rfl] at hx
    have hmp : 0 < max m p := lt_max_iff.mpr (Or.inl hm)
    rcases List.mem_cons.mp hx with rfl | hx'
    · exact hmp
    · exact ih (max m p) hmp (fun q hq => hl q (List.mem_cons_of_mem p hq)) x hx'

theorem drawdowns_filterMap_pos :
    ∀ (l : List ℚ) (m : ℚ), 0 < m → (∀ p ∈ l, 0 < p) →
      (List.zipWith
          (fun p mm => if mm = 0 then Option.none else some (p / mm - 1))
          l (cummaxFrom m l)).filterMap id =
        List.zipWith (fun p mm => p / mm - 1) l (cummaxFrom m l) := by
  intro l
  induction l with
  | nil => intro m _ _; rfl
  | cons p ps ih =>
    intro m hm hl
    rw [show cummaxFrom m (p :: ps) = max m p :: cummaxFrom (max m p) ps
      from rfl]
    rw [List.zipWith_cons_cons, List.zipWith_cons_cons]
    have hmp : 0 < max m p := lt_max_iff.mpr (Or.inl hm)
    rw [if_neg (ne_of_gt hmp)]
    simp only [List.filterMap_cons, id]
    rw [ih (max m p) hmp (fun q hq => hl q (List.mem_cons_of_mem p hq))]

theorem maxDrawdown_eq_spec {ps : List ℚ} (h : ∀ p ∈ ps, 0 < p) :
    maxDrawdown ps = maxDrawdownSpec ps := by
  cases ps with
  | nil => rfl
  | cons p0 rest =>
    have hp0 : 0 < p0 := h p0 (by simp)
    have hrest : ∀ p ∈ rest, 0 < p := fun q hq => h q (List.mem_cons_of_mem p0 hq)
    unfold maxDrawdown maxDrawdownSpec drawdowns
    rw [show cummax (p0 :: rest) = p0 :: cummaxFrom p0 rest from rfl]
    rw [List.zipWith_cons_cons, List.zipWith_cons_cons,
      if_neg (ne_of_gt hp0), div_self (ne_of_gt hp0)]
    simp only [List.filterMap_cons, id]
    rw [drawdowns_filterMap_pos rest p0 hp0 hrest]
    have hmapneg :
        List.zipWith (fun p mm => 1 - p / mm) rest (cummaxFrom p0 rest) =
          (List.zipWith (fun p mm => p / mm - 1) rest
            (cummaxFrom p0 rest)).map (fun x => -x) := by
      rw [List.map_zipWith]
      simp only [neg_sub]
    rw [hmapneg]
    rw [foldl_ratMin_eq, ratAbs_eq_abs]
    have hle : (List.zipWith (fun p mm => p / mm - 1) rest
        (cummaxFrom p0 rest)).foldl min (1 - 1) ≤ 0 := by
      have := foldl_min_le
        (List.zipWith (fun p mm => p / mm - 1) rest (cummaxFrom p0 rest)) (1 - 1)
      simpa using this
    rw [abs_of_nonpos hle, neg_foldl_min]
    norm_num

/-- C2: for every per-symbol price series (positive prices, as a price
series has), the integrator's max drawdown `abs(min(prices/cummax - 1))`
equals the spec's `max(1 - price[t]/running_max_price[0..t])`; the empty
series yields 0; and the 5-day series [100,110,90,95,120] yields
(110-90)/110 = 2/11 ≈ 0.1818. -/
theorem C2_max_drawdown (ps : List ℚ) :
    (ps = [] → maxDrawdown ps = 0) ∧
      ((∀ p ∈ ps, 0 < p) → maxDrawdown ps = maxDrawdownSpec ps) ∧
      maxDrawdown [100, 110, 90, 95, 120] = 2 / 11 := by
  refine ⟨?_, fun h => maxDrawdown_eq_spec h, ?_⟩
  · intro h
    subst h
    rfl
  · norm_num [maxDrawdown, drawdowns, cummax, cummaxFrom, ratAbs, ratMin,
      max_def, List.zipWith, List.filterMap, List.foldl]

/-- Witness for C2: the empty series gives 0, the example series matches
the spec formula and evaluates to 2/11. -/
theorem C2_max_drawdown_witness :
    maxDrawdown ([] : List ℚ) = 0 ∧
      maxDrawdown [100, 110, 90, 95, 120] =
        maxDrawdownSpec [100, 110, 90, 95, 120] ∧
      maxDrawdown [100, 110, 90, 95, 120] = 2 / 11 :=
  ⟨(C2_max_drawdown []).1 rfl,
    (C2_max_drawdown [100, 110, 90, 95, 120]).2.1
      (by intro p hp; fin_cases hp <;> norm_num),
    (C2_max_drawdown [100, 110, 90, 95, 120]).2.2⟩

/-- C7: for every non-empty price series the computed volatility and max
drawdown are non-negative, and a single-point series yields exactly 0
for both. -/
theorem C7_risk_metrics (ps : List ℚ) :
    (ps ≠ [] → 0 ≤ volatility ps ∧ 0 ≤ maxDrawdown ps) ∧
      ∀ p : ℚ, volatility [p] = 0 ∧ maxDrawdown [p] = 0 := by
  constructor
  · intro _
    constructor
    · unfold volatility
      by_cases hlen : (dailyReturns ps).length ≤ 1
      · simp [hlen]
      · simp [hlen, Real.sqrt_nonneg]
    · unfold maxDrawdown
      split
      · exact le_refl 0
      · exact ratAbs_nonneg _
  · intro p
    constructor
    · simp [volatility, dailyReturns]
    · by_cases hp : p = 0
      · subst hp
        norm_num [maxDrawdown, drawdowns, cummax, cummaxFrom,
          List.filterMap, List.foldl]
      · norm_num [maxDrawdown, drawdowns, cummax, cummaxFrom, hp,
          div_self hp, ratAbs, List.filterMap, List.foldl]

/-- Witness for C7 at the two-point series [100, 110] and the
single-point series [5]. -/
theorem C7_risk_metrics_witness :
    (0 ≤ volatility [100, 110] ∧ 0 ≤ maxDrawdown [100, 110]) ∧
      volatility [(5 : ℚ)] = 0 ∧ maxDrawdown [(5 : ℚ)] = 0 :=
  ⟨(C7_risk_metrics [100, 110]).1 (by simp),
    (C7_risk_metrics [100, 110]).2 5⟩

theorem dedupLast_subset : ∀ {l : List FundRow} {r}, r ∈ dedupLast l → r ∈ l := by
  intro l
  induction l with
  | nil =>
    intro r h
    simp [dedupLast] at h
  | cons x xs ih =>
    intro r h
    unfold dedupLast at h
    split at h
    · exact List.mem_cons_of_mem x (ih h)
    · rcases List.mem_cons.mp h with rfl | h'
      · simp
      · exact List.mem_cons_of_mem x (ih h')

theorem dedupLast_max_fy :
    ∀ {l : List FundRow}, l.Sorted fundLE →
      ∀ r ∈ dedupLast l, ∀ r' ∈ l, r'.symbol = r.symbol → r'.fy ≤ r.fy := by
  intro l
  induction l with
  | nil =>
    intro _ r h
    simp [dedupLast] at h
  | cons x xs ih =>
    intro hs r hr r' hr' hsym
    obtain ⟨hx, hs'⟩ := List.sorted_cons.mp hs
    have hfy_of_sorted : r ∈ xs → x.symbol = r.symbol → x.fy ≤ r.fy := by
      intro hrx he
      rcases hx r hrx with hlt | ⟨_, hle⟩
      · rw [he] at hlt
        exact absurd hlt (lt_irrefl _)
      · exact hle
    unfold dedupLast at hr
    split at hr
    · rcases List.mem_cons.mp hr' with rfl | h'
      · exact hfy_of_sorted (dedupLast_subset hr) hsym
      · exact ih hs' r hr r' h' hsym
    next hc =>
      rcases List.mem_cons.mp hr with rfl | hr2
      · rcases List.mem_cons.mp hr' with rfl | h'
        · exact le_refl _
        · exact absurd (List.any_eq_true.mpr ⟨r', h', by simp [hsym]⟩) hc
      · rcases List.mem_cons.mp hr' with rfl | h'
        · exact hfy_of_sorted (dedupLast_subset hr2) hsym
        · exact ih hs' r hr2 r' h' hsym

theorem dedupLast_pairwise (l : List FundRow) :
    (dedupLast l).Pairwise (fun a b => a.symbol ≠ b.symbol) := by
  induction l with
  | nil => simp [dedupLast]
  | cons x xs ih =>
    unfold dedupLast
    split
    · exact ih
    next hc =>
      refine List.Pairwise.cons ?_ ih
      intro y hy he
      exact hc (List.any_eq_true.mpr ⟨y, dedupLast_subset hy, by simp [he.symm]⟩)

theorem dedupLast_covers :
    ∀ (l : List FundRow), ∀ r ∈ l, ∃ r' ∈ dedupLast l, r'.symbol = r.symbol := by
  intro l
  induction l with
  | nil =>
    intro r h
    simp at h
  | cons x xs ih =>
    intro r hr
    unfold dedupLast
    split
    next hc =>
      rcases List.mem_cons.mp hr with rfl | h'
      · obtain ⟨y, hy, hye⟩ := List.any_eq_true.mp hc
        obtain ⟨r', hr', he⟩ := ih y hy
        exact ⟨r', hr', he.trans (of_decide_eq_true hye)⟩
      · exact ih r h'
    · rcases List.mem_cons.mp hr with rfl | h'
      · exact ⟨r, by simp, rfl⟩
      · obtain ⟨r', hr', he⟩ := ih r h'
        exact ⟨r', List.mem_cons_of_mem x hr', he⟩

theorem dedupLast_keeps_last :
    ∀ (l : List FundRow), ∀ r ∈ dedupLast l,
      ∃ pre post, l = pre ++ r :: post ∧ ∀ x ∈ post, x.symbol ≠ r.symbol := by
  intro l
  induction l with
  | nil =>
    intro r h
    simp [dedupLast] at h
  | cons x xs ih =>
    intro r hr
    unfold dedupLast at hr
    split at hr
    · obtain ⟨pre, post, heq, hpost⟩ := ih r hr
      exact ⟨x :: pre, post, by rw [heq]; rfl, hpost⟩
    next hc =>
      rcases List.mem_cons.mp hr with rfl | hr2
      · refine ⟨[], xs, rfl, ?_⟩
        intro y hy he
        exact hc (List.any_eq_true.mpr ⟨y, hy, by simp [he]⟩)
      · obtain ⟨pre, post, heq, hpost⟩ := ih r hr2
        exact ⟨x :: pre, post, by rw [heq]; rfl, hpost⟩

/-- C1: the fundamentals collapse keeps, for every symbol of the table,
exactly one row — a row of the table whose fiscal year is maximal among
that symbol's rows, namely the last row of that symbol in the table's
sort order by (symbol, fy) — and in scenario 1 the rows
[(A, 2022, de=0.8), (A, 2021, de=2.0)] collapse to the 2022 row, which,
joined to a price row for A, passes the debt/equity ≤ 1.0 filter. -/
theorem C1_collapse_latest_fiscal_year :
    (∀ rows : List FundRow, ∀ r ∈ collapseFund rows,
        r ∈ rows ∧ ∀ r' ∈ rows, r'.symbol = r.symbol → r'.fy ≤ r.fy) ∧
      (∀ rows : List FundRow,
        (collapseFund rows).Pairwise (fun a b => a.symbol ≠ b.symbol)) ∧
      (∀ rows : List FundRow, ∀ r ∈ rows,
        ∃ r' ∈ collapseFund rows, r'.symbol = r.symbol) ∧
      (∀ rows : List FundRow, ∀ r ∈ collapseFund rows,
        ∃ pre post, List.insertionSort fundLE rows = pre ++ r :: post ∧
          ∀ x ∈ post, x.symbol ≠ r.symbol) ∧
      collapseFund [scenFund2022, scenFund2021] = [scenFund2022] ∧
      leftJoin [scenPrice] [scenFund2022] = [⟨scenPrice, some scenFund2022⟩] ∧
      applyFilter FilterKind.de scenPlan true
          [⟨scenPrice, some scenFund2022⟩] =
        [⟨scenPrice, some scenFund2022⟩] := by
  have hperm : ∀ rows : List FundRow,
      (List.insertionSort fundLE rows).Perm rows :=
    fun rows => List.perm_insertionSort fundLE rows
  refine ⟨?_, ?_, ?_, ?_, ?_, ?_, ?_⟩
  · intro rows r hr
    constructor
    · exact (hperm rows).subset (dedupLast_subset hr)
    · intro r' hr' hsym
      exact dedupLast_max_fy (List.sorted_insertionSort fundLE rows) r hr r'
        ((hperm rows).mem_iff.mpr hr') hsym
  · intro rows
    exact dedupLast_pairwise _
  · intro rows r hr
    exact dedupLast_covers _ r ((hperm rows).mem_iff.mpr hr)
  · intro rows r hr
    exact dedupLast_keeps_last _ r hr
  · rfl
  · rfl
  · have hpass : rowPasses FilterKind.de 1 ⟨scenPrice, some scenFund2022⟩ = true := by
      show filterCmp FilterKind.de (8 / 10) 1 = true
      show decide ((8 : ℚ) / 10 ≤ 1) = true
      rw [decide_eq_true_eq]
      norm_num
    show List.filter (rowPasses FilterKind.de 1) [⟨scenPrice, some scenFund2022⟩] =
      [⟨scenPrice, some scenFund2022⟩]
    simp [List.filter, hpass]

/-- Witness for C1 at scenario 1: the kept row is one of the input rows
and its fiscal year dominates the other row of symbol A. -/
theorem C1_collapse_latest_fiscal_year_witness :
    scenFund2022 ∈ [scenFund2022, scenFund2021] ∧
      scenFund2021.fy ≤ scenFund2022.fy := by
  have hmem : scenFund2022 ∈ collapseFund [scenFund2022, scenFund2021] := by
    rw [C1_collapse_latest_fiscal_year.2.2.2.2.1]
    simp
  have h := C1_collapse_latest_fiscal_year.1 [scenFund2022, scenFund2021]
    scenFund2022 hmem
  exact ⟨h.1, h.2 scenFund2021 (by simp) rfl⟩

/-- C4 counterexample: with an empty price table and a non-empty
fundamentals table, the fundamentals collapse stage still runs — it
precedes the empty-price check in `integrate` — so "zero calls to the
fundamentals collapse" fails. -/
theorem C4_counterexample :
    Stage.collapseStage ∈ integrateStages [] [scenFund2022] := by
  decide

/-- C4 (amended): for every plan and fundamentals table, an empty price
table makes `integrate` return an empty result list together with the
non-empty "no data" status string, and the join and filter stages are
never reached; the fundamentals collapse, however, runs before the
emptiness check whenever the fundamentals table is non-empty. -/
theorem C4_empty_price_short_circuit (plan : QueryPlan)
    (df_fund : List FundRow) (daily : List DailyRow) :
    integrate plan [] df_fund daily =
        ([], ("No price data found for the specified criteria.").toList) ∧
      ("No price data found for the specified criteria.").toList ≠ [] ∧
      Stage.joinStage ∉ integrateStages [] df_fund ∧
      Stage.filterStage ∉ integrateStages [] df_fund ∧
      (df_fund ≠ [] → Stage.collapseStage ∈ integrateStages [] df_fund) := by
  refine ⟨?_, by decide, ?_, ?_, ?_⟩
  · unfold integrate integrateWith
    simp
  · unfold integrateStages
    split <;> simp
  · unfold integrateStages
    split <;> simp
  · intro h
    unfold integrateStages
    rw [if_neg h]
    simp

/-- Witness for C4 (amended) at the scenario plan with an empty price
table and one fundamentals row. -/
theorem C4_empty_price_short_circuit_witness :
    integrate scenPlan [] [scenFund2022] [] =
        ([], ("No price data found for the specified criteria.").toList) ∧
      Stage.collapseStage ∈ integrateStages [] [scenFund2022] :=
  ⟨(C4_empty_price_short_circuit scenPlan [scenFund2022] []).1,
    (C4_empty_price_short_circuit scenPlan [scenFund2022] []).2.2.2.2
      (by simp)⟩

theorem applyFilter_eq_filter (k : FilterKind) (plan : QueryPlan) (hF : Bool)
    (rows : List JoinedRow) :
    applyFilter k plan hF rows = rows.filter (filterPred k plan hF) := by
  unfold applyFilter filterPred
  rcases filterThreshold k plan with _ | m
  · rw [List.filter_true]
  · by_cases hc : filterColPresent k hF
    · simp [hc]
    · simp [hc, List.filter_true]

theorem applyFilters_eq_filter (ks : List FilterKind) (plan : QueryPlan)
    (hF : Bool) (rows : List JoinedRow) :
    applyFilters ks plan hF rows =
      rows.filter (fun j => ks.all (fun k => filterPred k plan hF j)) := by
  induction ks generalizing rows with
  | nil =>
    unfold applyFilters
    simp [List.filter_true]
  | cons k ks ih =>
    show applyFilters ks plan hF (applyFilter k plan hF rows) = _
    rw [ih, applyFilter_eq_filter, List.filter_filter]
    refine List.filter_congr ?_
    intro j _
    simp [List.all_cons, Bool.and_comm]

theorem all_of_perm {ks ks' : List FilterKind} (h : ks.Perm ks')
    (f : FilterKind → Bool) : ks.all f = ks'.all f := by
  induction h with
  | nil => rfl
  | cons x _ ih => simp [List.all_cons, ih]
  | swap x y l =>
    simp only [List.all_cons]
    cases f x <;> cases f y <;> simp
  | trans _ _ ih1 ih2 => rw [ih1, ih2]

/-- C6: each of the four threshold filter blocks is the identity on the
row set when its threshold is absent (first conjunct, for every filter
kind), and integrating with that block removed yields output identical
to the full pipeline — stated for each of the four thresholds, in
particular for a plan with `min_price_growth = None` — and the filters
are conjunctive, so applying them in any order yields the same final
output. -/
theorem C6_filters_noop_and_commute (plan : QueryPlan)
    (df_price : List PriceAggRow) (df_fund : List FundRow)
    (daily : List DailyRow) :
    (∀ (k : FilterKind) (hF : Bool) (rows : List JoinedRow),
        filterThreshold k plan = Option.none →
        applyFilter k plan hF rows = rows) ∧
      (plan.min_price_growth = Option.none →
        integrate plan df_price df_fund daily =
          integrateWith [FilterKind.de, FilterKind.roe, FilterKind.pe]
            plan df_price df_fund daily) ∧
      (plan.max_debt_equity = Option.none →
        integrate plan df_price df_fund daily =
          integrateWith [FilterKind.growth, FilterKind.roe, FilterKind.pe]
            plan df_price df_fund daily) ∧
      (plan.min_roe = Option.none →
        integrate plan df_price df_fund daily =
          integrateWith [FilterKind.growth, FilterKind.de, FilterKind.pe]
            plan df_price df_fund daily) ∧
      (plan.max_pe = Option.none →
        integrate plan df_price df_fund daily =
          integrateWith [FilterKind.growth, FilterKind.de, FilterKind.roe]
            plan df_price df_fund daily) ∧
      ∀ ks : List FilterKind, ks.Perm allFilterKinds →
        integrateWith ks plan df_price df_fund daily =
          integrate plan df_price df_fund daily := by
  have key : ∀ ks ks' : List FilterKind,
      (∀ rows hF, applyFilters ks plan hF rows = applyFilters ks' plan hF rows) →
      integrateWith ks plan df_price df_fund daily =
        integrateWith ks' plan df_price df_fund daily := by
    intro ks ks' h
    unfold integrateWith
    simp only [h]
  have hpred : ∀ (k : FilterKind) (hF : Bool) (j : JoinedRow),
      filterThreshold k plan = Option.none → filterPred k plan hF j = true := by
    intro k hF j hk
    unfold filterPred
    rw [hk]
  have hdrop : ∀ (k : FilterKind), filterThreshold k plan = Option.none →
      ∀ ks' : List FilterKind,
        (∀ hF j, allFilterKinds.all (fun kk => filterPred kk plan hF j) =
          (filterPred k plan hF j &&
            ks'.all (fun kk => filterPred kk plan hF j))) →
      integrate plan df_price df_fund daily =
        integrateWith ks' plan df_price df_fund daily := by
    intro k hk ks' hsplit
    refine key allFilterKinds ks' ?_
    intro rows hF
    rw [applyFilters_eq_filter, applyFilters_eq_filter]
    refine List.filter_congr ?_
    intro j _
    rw [hsplit hF j, hpred k hF j hk, Bool.true_and]
  refine ⟨?_, ?_, ?_, ?_, ?_, ?_⟩
  · intro k hF rows hk
    unfold applyFilter
    rw [hk]
  · intro hnone
    refine hdrop FilterKind.growth hnone
      [FilterKind.de, FilterKind.roe, FilterKind.pe] ?_
    intro hF j
    simp [allFilterKinds, List.all_cons]
  · intro hnone
    refine hdrop FilterKind.de hnone
      [FilterKind.growth, FilterKind.roe, FilterKind.pe] ?_
    intro hF j
    simp only [allFilterKinds, List.all_cons, List.all_nil, Bool.and_true]
    cases filterPred FilterKind.growth plan hF j <;>
      cases filterPred FilterKind.de plan hF j <;> simp
  · intro hnone
    refine hdrop FilterKind.roe hnone
      [FilterKind.growth, FilterKind.de, FilterKind.pe] ?_
    intro hF j
    simp only [allFilterKinds, List.all_cons, List.all_nil, Bool.and_true]
    cases filterPred FilterKind.growth plan hF j <;>
      cases filterPred FilterKind.de plan hF j <;>
      cases filterPred FilterKind.roe plan hF j <;> simp
  · intro hnone
    refine hdrop FilterKind.pe hnone
      [FilterKind.growth, FilterKind.de, FilterKind.roe] ?_
    intro hF j
    simp only [allFilterKinds, List.all_cons, List.all_nil, Bool.and_true]
    cases filterPred FilterKind.growth plan hF j <;>
      cases filterPred FilterKind.de plan hF j <;>
      cases filterPred FilterKind.roe plan hF j <;> simp
  · intro ks hperm
    refine key ks allFilterKinds ?_
    intro rows hF
    rw [applyFilters_eq_filter, applyFilters_eq_filter]
    refine List.filter_congr ?_
    intro j _
    rw [all_of_perm hperm]

/-- Witness for C6 at scenario-style inputs: the ROE filter (absent
threshold) is the identity on a concrete row set, the growth and P/E
blocks (both absent in the scenario plan) can each be dropped from the
pipeline, and a permuted filter order gives the same output. -/
theorem C6_filters_noop_and_commute_witness :
    applyFilter FilterKind.roe scenPlan true [⟨scenPrice, some scenFund2022⟩] =
        [⟨scenPrice, some scenFund2022⟩] ∧
      (integrate scenPlan [scenPrice] [scenFund2022] [] =
        integrateWith [FilterKind.de, FilterKind.roe, FilterKind.pe]
          scenPlan [scenPrice] [scenFund2022] []) ∧
      (integrate scenPlan [scenPrice] [scenFund2022] [] =
        integrateWith [FilterKind.growth, FilterKind.de, FilterKind.roe]
          scenPlan [scenPrice] [scenFund2022] []) ∧
      integrateWith [FilterKind.pe, FilterKind.roe, FilterKind.de,
          FilterKind.growth] scenPlan [scenPrice] [scenFund2022] [] =
        integrate scenPlan [scenPrice] [scenFund2022] [] :=
  ⟨(C6_filters_noop_and_commute scenPlan [scenPrice] [scenFund2022] []).1
      FilterKind.roe true [⟨scenPrice, some scenFund2022⟩] rfl,
    (C6_filters_noop_and_commute scenPlan [scenPrice] [scenFund2022] []).2.1 rfl,
    (C6_filters_noop_and_commute scenPlan [scenPrice]
      [scenFund2022] []).2.2.2.2.1 rfl,
    (C6_filters_noop_and_commute scenPlan [scenPrice] [scenFund2022] []).2.2.2.2.2
      _ (by decide)⟩

end FinSight
